import Mathlib

/-!
Shallow embedding of the resume-analysis core of this repository: the
keyword extractor/analyzer (`ai/keyword-analyzer.ts`), the ATS scorer
(`ai/ats-scorer.ts`), the job-posting salary extraction
(`job-analyzer`, `cleanJobText`/`extractSalaryRange`), and the tailoring
engine (`tailorResume` and its helpers).

Modelling conventions:
  * JavaScript strings are Lean `String`s, manipulated through their
    `List Char` data.  All character classes of the regexes used by the
    code (`\w`, `\s`, `\d`, `[.!?]`, ...) are ASCII, matching the regex
    semantics on the inputs the code handles.
  * JavaScript numbers are embedded as `ℚ` (scores, importances,
    densities) or as `ℕ`/`ℤ` where the code only produces integers.
    `Math.round` is `jsRound q = ⌊q + 1/2⌋` (round half towards +∞),
    `Math.min`/`Math.max` are `min`/`max`.
  * `String.prototype.match(re, 'g')` counting is embedded by a
    non-overlapping left-to-right scan.  In the patterns that the code
    builds out of extracted keywords the only regex metacharacter that
    can occur is `.` (extracted keywords consist of `[\w.-]` and spaces),
    so the matcher treats `.` as the usual wildcard and every other
    character literally.
  * `String.prototype.replace(string, string)` replaces the first
    occurrence; the `$`-escapes of the replacement string are modelled.
  * Object-table lookups (`KEYWORD_WEIGHTS[cat][kw]`) are own-property
    association-list lookups; the `if (exactMatch)` truthiness test is a
    non-zero test (no table weight is `0`, so the branch agrees with JS).
-/

/-! ### JS character classes and elementary string operations -/

/-- JS regex `\w`: `[A-Za-z0-9_]`. -/
def isWordChar (c : Char) : Bool :=
  (97 ≤ c.toNat && c.toNat ≤ 122) || (65 ≤ c.toNat && c.toNat ≤ 90) ||
  (48 ≤ c.toNat && c.toNat ≤ 57) || c = '_'

/-- JS regex `\s` restricted to ASCII: space, tab, newline, CR, VT, FF. -/
def isJsWs (c : Char) : Bool :=
  c = ' ' || c = '\t' || c = '\n' || c = '\r' || c.toNat = 11 || c.toNat = 12

/-- `String.prototype.toLowerCase` on ASCII. -/
def jsToLower (c : Char) : Char :=
  if 65 ≤ c.toNat && c.toNat ≤ 90 then Char.ofNat (c.toNat + 32) else c

/-- Lower-case a whole string. -/
def lowerStr (s : String) : String := String.mk (s.data.map jsToLower)

/-- `replace(/\s+/g, ' ')`: each maximal whitespace run becomes one space. -/
def collapseWs : List Char → List Char
  | [] => []
  | [c] => if isJsWs c then [' '] else [c]
  | c :: d :: rest =>
    if isJsWs c && isJsWs d then collapseWs (d :: rest)
    else (if isJsWs c then ' ' else c) :: collapseWs (d :: rest)

/-- `String.prototype.trim`. -/
def trimWs (l : List Char) : List Char :=
  ((l.dropWhile isJsWs).reverse.dropWhile isJsWs).reverse

/-- `trim` on strings. -/
def jsTrim (s : String) : String := String.mk (trimWs s.data)

/-- JS `split(sep)` for a one-character string separator: `"" → [""]`,
separators at the ends produce empty pieces. -/
def splitOnChar (sep : Char) : List Char → List (List Char)
  | [] => [[]]
  | c :: rest =>
    if c = sep then [] :: splitOnChar sep rest
    else
      match splitOnChar sep rest with
      | [] => [[c]]
      | t :: ts => (c :: t) :: ts

/-- JS `split(/p+/)` for a character class `p`: split on maximal runs of
characters satisfying `p`.  State `none` = currently inside a run. -/
def jsSplitRunsGo (p : Char → Bool) : List Char → Option (List Char) → List (List Char)
  | [], some acc => [acc.reverse]
  | [], none => [[]]
  | c :: rest, some acc =>
    if p c then acc.reverse :: jsSplitRunsGo p rest none
    else jsSplitRunsGo p rest (some (c :: acc))
  | c :: rest, none =>
    if p c then jsSplitRunsGo p rest none
    else jsSplitRunsGo p rest (some [c])

/-- JS `split(/p+/)` from the start state. -/
def jsSplitRuns (p : Char → Bool) (l : List Char) : List (List Char) :=
  jsSplitRunsGo p l (some [])

/-- `needle` occurs as a contiguous substring of the second argument
(JS `String.prototype.includes`). -/
def containsSub (needle : List Char) : List Char → Bool
  | [] => needle.isEmpty
  | c :: rest => needle.isPrefixOf (c :: rest) || containsSub needle rest

/-- `hay.includes(sub)` on strings. -/
def strIncludes (hay sub : String) : Bool := containsSub sub.data hay.data

/-- Split a list at the first occurrence of `pat`, returning the part
before the match and the part after it. -/
def splitFirstSub (pat : List Char) : List Char → Option (List Char × List Char)
  | [] => if pat.isEmpty then some ([], []) else none
  | c :: rest =>
    if pat.isPrefixOf (c :: rest) then some ([], (c :: rest).drop pat.length)
    else
      match splitFirstSub pat rest with
      | none => none
      | some (b, a) => some (c :: b, a)

/-- The `$`-escapes JS interprets in a replacement string: `$$`, `$&`
(the match), `` $` `` (the text before it), `$'` (the text after it). -/
def jsExpandRepl (matched before after : List Char) : List Char → List Char
  | [] => []
  | c :: r =>
    if c = '$' then
      match r with
      | [] => [c]
      | d :: r2 =>
        if d = '$' then '$' :: jsExpandRepl matched before after r2
        else if d = '&' then matched ++ jsExpandRepl matched before after r2
        else if d.toNat = 96 then before ++ jsExpandRepl matched before after r2
        else if d.toNat = 39 then after ++ jsExpandRepl matched before after r2
        else c :: jsExpandRepl matched before after (d :: r2)
    else c :: jsExpandRepl matched before after r

/-- JS `s.replace(pat, repl)` with string arguments: replace the first
occurrence of `pat`, processing `$`-escapes of `repl`. -/
def jsReplaceFirst (s pat repl : String) : String :=
  match splitFirstSub pat.data s.data with
  | none => s
  | some (b, a) => String.mk (b ++ jsExpandRepl pat.data b a repl.data ++ a)

/-- One regex "literal" character against one text character: `.` is the
wildcard (anything but a line terminator), everything else is literal. -/
def regexCharMatch (p c : Char) : Bool :=
  if p = '.' then !(c = '\n' || c = '\r' || c.toNat = 8232 || c.toNat = 8233)
  else p = c

/-- Match such a pattern against the front of the text, returning the rest. -/
def regexLitPrefix : List Char → List Char → Option (List Char)
  | [], t => some t
  | _ :: _, [] => none
  | p :: ps, c :: cs => if regexCharMatch p c then regexLitPrefix ps cs else none

/-- Non-overlapping left-to-right count of matches, with fuel (the fuel is
the text length; every step consumes at least one character for a
non-empty pattern, so the fuel never runs out). -/
def countMatchesGo (pat : List Char) : Nat → List Char → Nat
  | 0, _ => 0
  | _, [] => 0
  | Nat.succ fuel, c :: rest =>
    match regexLitPrefix pat (c :: rest) with
    | some r => 1 + countMatchesGo pat fuel r
    | none => countMatchesGo pat fuel rest

/-- Non-overlapping count of matches of a (wildcard-`.`) pattern; an empty
pattern matches JS's empty-regex behaviour (`text.length + 1` matches). -/
def countMatches (pat text : List Char) : Nat :=
  if pat.isEmpty then text.length + 1 else countMatchesGo pat text.length text

/-- Literal prefix test used for the escaped-regex count. -/
def countLiteralGo (pat : List Char) : Nat → List Char → Nat
  | 0, _ => 0
  | _, [] => 0
  | Nat.succ fuel, c :: rest =>
    if pat.isPrefixOf (c :: rest) then 1 + countLiteralGo pat fuel ((c :: rest).drop pat.length)
    else countLiteralGo pat fuel rest

/-- Keep only the first occurrence of each string (JS `new Set`, which
preserves insertion order). -/
def dedupGo (seen : List String) : List String → List String
  | [] => []
  | x :: xs => if seen.contains x then dedupGo seen xs else x :: dedupGo (x :: seen) xs

/-- `[...new Set(l)]`. -/
def dedup (l : List String) : List String := dedupGo [] l

/-! ### keyword-analyzer: extraction -/

/-- Stop words filtered out of single-token keywords (`STOP_WORDS`). -/
def STOP_WORDS : List String :=
  ["the", "a", "an", "and", "or", "but", "in", "on", "at", "to", "for", "of", "with",
   "by", "from", "up", "about", "into", "through", "during", "before", "after",
   "above", "below", "between", "among", "is", "are", "was", "were", "be", "been",
   "being", "have", "has", "had", "do", "does", "did", "will", "would", "could",
   "should", "may", "might", "must", "can", "this", "that", "these", "those",
   "i", "you", "he", "she", "it", "we", "they", "me", "him", "her", "us", "them",
   "my", "your", "his", "her", "its", "our", "their", "all", "any", "both",
   "each", "few", "more", "most", "other", "some", "such", "no", "nor", "not",
   "only", "own", "same", "so", "than", "too", "very", "one", "also", "just",
   "now", "here", "there", "when", "where", "why", "how"]

/-- The fixed technical-phrase catalog of `extractPhrases`. -/
def technicalPhrases : List String :=
  ["machine learning", "artificial intelligence", "data science",
   "full stack", "front end", "back end", "dev ops", "cloud computing",
   "rest api", "graphql api", "micro services", "distributed systems",
   "ci cd", "test driven development", "agile development",
   "version control", "code review", "pair programming"]

/-- The fixed business-phrase catalog of `extractPhrases`. -/
def businessPhrases : List String :=
  ["project management", "product management", "business analysis",
   "stakeholder management", "cross functional", "team leadership",
   "process improvement", "cost reduction", "revenue growth",
   "customer satisfaction", "user experience", "market research"]

/-- `extractPhrases`: catalog phrases contained (as substrings) in the text. -/
def extractPhrases (text : String) : List String :=
  (technicalPhrases ++ businessPhrases).filter (fun p => containsSub p.data text.data)

/-- The cleaning step of `extractKeywords`: lower-case, replace every
character outside `[\w\s.-]` by a space, collapse whitespace, trim. -/
def cleanTextKA (s : String) : String :=
  String.mk (trimWs (collapseWs ((s.data.map jsToLower).map
    (fun c => if isWordChar c || isJsWs c || c = '.' || c = '-' then c else ' '))))

/-- `extractKeywords`: catalog phrases plus tokens of length > 2 that are
not stop words, deduplicated keeping first occurrences. -/
def extractKeywords (text : String) : List String :=
  if (trimWs text.data).isEmpty then []
  else
    let clean := cleanTextKA text
    let phrases := extractPhrases clean
    let words := ((splitOnChar ' ' clean.data).map String.mk).filter
      (fun w => decide (2 < w.length) && !(STOP_WORDS.contains w))
    dedup (phrases ++ words)

/-- `Math.min` on rationals, by the order test (kept executable). -/
def jsMinQ (a b : ℚ) : ℚ := if a ≤ b then a else b

/-- `Math.max` on rationals, by the order test (kept executable). -/
def jsMaxQ (a b : ℚ) : ℚ := if a ≤ b then b else a

/-! ### keyword-analyzer: importance -/

/-- The keyword categories. -/
inductive Category
  | technical
  | soft
  | industry
  | action
  | certification
deriving DecidableEq

/-- `KEYWORD_WEIGHTS.technical`. -/
def technicalWeights : List (String × ℚ) :=
  [("javascript", 10), ("python", 10), ("react", 9), ("node.js", 9), ("aws", 9),
   ("sql", 8), ("docker", 8), ("kubernetes", 8), ("git", 7), ("mongodb", 7),
   ("typescript", 8), ("next.js", 8), ("postgresql", 7), ("redis", 6),
   ("graphql", 7), ("rest api", 8), ("microservices", 8), ("devops", 8),
   ("ci/cd", 7), ("jenkins", 6), ("terraform", 7), ("linux", 6)]

/-- `KEYWORD_WEIGHTS.soft`. -/
def softWeights : List (String × ℚ) :=
  [("leadership", 8), ("communication", 7), ("teamwork", 6), ("problem solving", 8),
   ("analytical", 7), ("creative", 6), ("detail oriented", 6), ("organized", 5),
   ("collaborative", 6), ("adaptable", 6), ("innovative", 7), ("strategic", 7)]

/-- `KEYWORD_WEIGHTS.action`. -/
def actionWeights : List (String × ℚ) :=
  [("developed", 8), ("implemented", 8), ("managed", 7), ("led", 8), ("created", 7),
   ("designed", 7), ("optimized", 8), ("improved", 7), ("built", 6), ("delivered", 6),
   ("achieved", 7), ("increased", 8), ("reduced", 8), ("streamlined", 7)]

/-- `KEYWORD_WEIGHTS.industry`. -/
def industryWeights : List (String × ℚ) :=
  [("agile", 7), ("scrum", 6), ("kanban", 5), ("jira", 5), ("confluence", 4),
   ("startup", 6), ("enterprise", 6), ("b2b", 5), ("b2c", 5), ("saas", 7),
   ("fintech", 6), ("healthcare", 6), ("e-commerce", 6), ("mobile", 6)]

/-- `KEYWORD_WEIGHTS.certification`. -/
def certificationWeights : List (String × ℚ) :=
  [("aws certified", 9), ("google cloud", 8), ("azure", 7), ("pmp", 6),
   ("scrum master", 6), ("certified", 5), ("professional", 4)]

/-- `KEYWORD_WEIGHTS[category]`. -/
def KEYWORD_WEIGHTS : Category → List (String × ℚ)
  | .technical => technicalWeights
  | .soft => softWeights
  | .industry => industryWeights
  | .action => actionWeights
  | .certification => certificationWeights

/-- `categorizeKeyword`: first table (in the fixed priority order
technical → action → certification → industry) with an entry that is a
substring of the keyword; otherwise `soft`. -/
def categorizeKeyword (keyword : String) : Category :=
  let lk := lowerStr keyword
  if technicalWeights.any (fun p => containsSub p.1.data lk.data) then .technical
  else if actionWeights.any (fun p => containsSub p.1.data lk.data) then .action
  else if certificationWeights.any (fun p => containsSub p.1.data lk.data) then .certification
  else if industryWeights.any (fun p => containsSub p.1.data lk.data) then .industry
  else .soft

/-- Count of `new RegExp(keyword.toLowerCase(), 'g')` matches in the
lower-cased context (the frequency boost of `calculateKeywordImportance`). -/
def kwFrequency (keyword context : String) : Nat :=
  let p := keyword.data.map jsToLower
  let t := context.data.map jsToLower
  if p.isEmpty then t.length + 1 else countMatchesGo p t.length t

/-- The table part of `calculateKeywordImportance`: the exact-match weight
(`if (exactMatch)`, i.e. present and non-zero), else 0.8 × the best
substring-matching weight starting from the default 5, else 5. -/
def importanceBase (keyword : String) (category : Category) : ℚ :=
  let lk := lowerStr keyword
  let tbl := KEYWORD_WEIGHTS category
  match tbl.find? (fun p => p.1 = lk) with
  | some p => if p.2 = 0 then 5 else p.2
  | none =>
    tbl.foldl
      (fun b p =>
        if containsSub p.1.data lk.data || containsSub lk.data p.1.data then
          jsMaxQ b (p.2 * 0.8)
        else b) 5

/-- The +3 boost when the context mentions required/must/essential. -/
def requiredBoost (context : String) : ℚ :=
  let cl := lowerStr context
  if strIncludes cl "required" || strIncludes cl "must" || strIncludes cl "essential"
  then 3 else 0

/-- The +2 boost when the context mentions "years" and the keyword. -/
def yearsBoost (keyword context : String) : ℚ :=
  let cl := lowerStr context
  if strIncludes cl "years" && strIncludes cl (lowerStr keyword) then 2 else 0

/-- The frequency boost: `min(frequency − 1, 3)` when the keyword occurs
more than twice in the context. -/
def freqBoost (keyword context : String) : ℚ :=
  let freq := kwFrequency keyword context
  if 2 < freq then jsMinQ ((freq : ℚ) - 1) 3 else 0

/-- `calculateKeywordImportance`: table weight plus the three context
boosts applied in order, capped at 15. -/
def calculateKeywordImportance (keyword : String) (category : Category) (context : String) : ℚ :=
  jsMinQ (importanceBase keyword category + requiredBoost context +
    yearsBoost keyword context + freqBoost keyword context) 15

/-- Characters ending a sentence for `extractKeywordContext` (`[.!?]+`). -/
def sentenceDelim (c : Char) : Bool := c = '.' || c = '!' || c = '?'

/-- `extractKeywordContext`: up to 3 trimmed sentences containing the keyword. -/
def extractKeywordContext (keyword text : String) : List String :=
  let sentences := (jsSplitRuns sentenceDelim text.data).map String.mk
  ((sentences.filter (fun s => strIncludes (lowerStr s) (lowerStr keyword))).map jsTrim).take 3

/-- One analyzed keyword (`KeywordImportance`). -/
structure KeywordImportance where
  keyword : String
  importance : ℚ
  category : Category
  context : List String
deriving DecidableEq

/-- Stable insertion for the descending sort on importance. -/
def insertByImportance (x : KeywordImportance) : List KeywordImportance → List KeywordImportance
  | [] => [x]
  | y :: ys =>
    if y.importance ≤ x.importance then x :: y :: ys else y :: insertByImportance x ys

/-- `sort((a, b) => b.importance - a.importance)`: stable descending sort. -/
def sortByImportanceDesc : List KeywordImportance → List KeywordImportance
  | [] => []
  | x :: xs => insertByImportance x (sortByImportanceDesc xs)

/-- `analyzeKeywordImportance`. -/
def analyzeKeywordImportance (keywords : List String) (context : String) : List KeywordImportance :=
  sortByImportanceDesc (keywords.map (fun kw =>
    { keyword := kw
      importance := calculateKeywordImportance kw (categorizeKeyword kw) context
      category := categorizeKeyword kw
      context := extractKeywordContext kw context }))

/-- `calculateKeywordDensity`: percentage of whitespace-split words of the
lower-cased text that contain the keyword. -/
def calculateKeywordDensity (text keyword : String) : ℚ :=
  if text = "" || keyword = "" then 0
  else
    let words := (jsSplitRuns isJsWs (lowerStr text).data).map String.mk
    let keywordCount := (words.filter (fun w => strIncludes w (lowerStr keyword))).length
    (keywordCount : ℚ) / (words.length : ℚ) * 100

/-! ### ats-scorer: data model -/

/-- `ATSScoreBreakdown.details`. -/
structure ATSDetails where
  totalKeywords : Nat
  matchedKeywords : Nat
  missingCriticalKeywords : List String
  formatIssues : List String
  contentIssues : List String
deriving DecidableEq

/-- `ATSScoreBreakdown`. -/
structure ATSScoreBreakdown where
  keywordMatch : ℤ
  formatScore : ℤ
  contentScore : ℤ
  lengthScore : ℤ
  structureScore : ℤ
  details : ATSDetails
deriving DecidableEq

/-- `ATSScoreResult`. -/
structure ATSScoreResult where
  score : ℤ
  breakdown : ATSScoreBreakdown
  recommendations : List String
  passesATS : Bool
deriving DecidableEq

/-- `Math.round`: round half towards positive infinity. -/
def jsRound (q : ℚ) : ℤ := ⌊q + 1 / 2⌋

/-! ### ats-scorer: keyword matching -/

/-- The basic synonym table of `isKeywordMatch`. -/
def synonymTable : List (String × List String) :=
  [("javascript", ["js", "ecmascript"]), ("python", ["py"]), ("database", ["db", "sql"]),
   ("frontend", ["front-end", "front end"]), ("backend", ["back-end", "back end"]),
   ("fullstack", ["full-stack", "full stack"])]

/-- `isKeywordMatch`: exact, contains in either direction, or a synonym pair. -/
def isKeywordMatch (resumeKeyword jobKeyword : String) : Bool :=
  let r := lowerStr resumeKeyword
  let j := lowerStr jobKeyword
  r = j || containsSub j.data r.data || containsSub r.data j.data ||
    synonymTable.any (fun p =>
      (r = p.1 && p.2.contains j) || (j = p.1 && p.2.contains r))

/-- `totalImportance`: the forEach accumulation of all importances. -/
def totalImportanceOf (kis : List KeywordImportance) : ℚ :=
  (kis.map (fun ki => ki.importance)).sum

/-- `matchedImportance`: the forEach accumulation of the importances of the
job keywords matched by some resume keyword. -/
def matchedImportanceOf (resumeKeywords : List String) (kis : List KeywordImportance) : ℚ :=
  (kis.map (fun ki =>
    if resumeKeywords.any (fun rk => isKeywordMatch rk ki.keyword) then ki.importance
    else 0)).sum

/-- `calculateKeywordMatchScore`: importance-weighted match percentage. -/
def calculateKeywordMatchScore (resumeText : String) (jobKeywords : List String) : ℤ :=
  if jobKeywords.length = 0 then 100
  else
    let kis := analyzeKeywordImportance jobKeywords resumeText
    let totalImportance := totalImportanceOf kis
    let matchedImportance := matchedImportanceOf (extractKeywords resumeText) kis
    if totalImportance = 0 then 100
    else min (jsRound (matchedImportance / totalImportance * 100)) 100

/-! ### ats-scorer: format, content, length, structure -/

/-- A character outside `[\w\s.,!?()-]` (the `unusualChars` regex). -/
def isUnusualChar (c : Char) : Bool :=
  !(isWordChar c || isJsWs c || c = '.' || c = ',' || c = '!' || c = '?' ||
    c = '(' || c = ')' || c = '-')

/-- `identifyFormatIssues`. -/
def identifyFormatIssues (resumeText : String) : List String :=
  (if strIncludes resumeText "\t" || strIncludes resumeText "  "
   then ["Inconsistent spacing"] else []) ++
  (if resumeText.data.any isUnusualChar then ["Unusual characters found"] else []) ++
  (if ["experience", "education", "skills"].any
       (fun sec => strIncludes (lowerStr resumeText) sec)
   then [] else ["Missing standard sections"])

/-- The per-issue deduction of `calculateFormatScore`. -/
def formatDeduction (issue : String) : Nat :=
  if issue = "Complex formatting detected" then 15
  else if issue = "Unusual characters found" then 10
  else if issue = "Inconsistent spacing" then 5
  else if issue = "Missing standard sections" then 20
  else 5

/-- `calculateFormatScore`: 100 minus deductions, floored at 0. -/
def calculateFormatScore (resumeText : String) : ℤ :=
  max (100 - (((identifyFormatIssues resumeText).map formatDeduction).sum : ℤ)) 0

/-- The strong action verbs checked by `identifyContentIssues`. -/
def strongActionVerbs : List String :=
  ["achieved", "improved", "increased", "reduced", "developed",
   "implemented", "managed", "led", "created", "optimized"]

/-- The generic phrases checked by `identifyContentIssues`. -/
def genericPhrases : List String := ["responsible for", "duties included", "worked on"]

/-- `identifyContentIssues`. -/
def identifyContentIssues (resumeText : String) : List String :=
  let lower := lowerStr resumeText
  (if resumeText.data.any Char.isDigit || resumeText.data.contains '%' ||
      resumeText.data.contains '$'
   then [] else ["Missing quantifiable achievements"]) ++
  (if strongActionVerbs.any (fun v => strIncludes lower v) then [] else ["Weak action verbs"]) ++
  (if strIncludes lower "skill" then [] else ["Missing skills section"]) ++
  (if genericPhrases.any (fun p => strIncludes lower p) then ["Generic job descriptions"] else [])

/-- The per-issue deduction of `calculateContentScore`. -/
def contentDeduction (issue : String) : Nat :=
  if issue = "Missing quantifiable achievements" then 15
  else if issue = "Weak action verbs" then 10
  else if issue = "No relevant keywords" then 20
  else if issue = "Generic job descriptions" then 12
  else if issue = "Missing skills section" then 15
  else 5

/-- `calculateContentScore`: 100 minus deductions, floored at 0. -/
def calculateContentScore (resumeText : String) : ℤ :=
  max (100 - (((identifyContentIssues resumeText).map contentDeduction).sum : ℤ)) 0

/-- `resumeText.split(/\s+/).length`. -/
def wordCount (resumeText : String) : Nat := (jsSplitRuns isJsWs resumeText.data).length

/-- `calculateLengthScore`. -/
def calculateLengthScore (resumeText : String) : ℤ :=
  let wc := wordCount resumeText
  if 400 ≤ wc ∧ wc ≤ 800 then 100
  else if 300 ≤ wc ∧ wc ≤ 1000 then 85
  else if 200 ≤ wc ∧ wc ≤ 1200 then 70
  else if wc < 200 then 40
  else 50

/-- The section-name keywords scanned by `identifyResumeSections`. -/
def sectionKeywords : List String :=
  ["summary", "objective", "profile",
   "experience", "work history", "employment",
   "education", "academic",
   "skills", "technical skills", "competencies",
   "projects", "portfolio",
   "certifications", "licenses",
   "awards", "achievements",
   "publications", "research"]

/-- `identifyResumeSections`: section keywords found on short lines, deduplicated. -/
def identifyResumeSections (resumeText : String) : List String :=
  let lines := (splitOnChar '\n' resumeText.data).map String.mk
  dedup (lines.flatMap (fun line =>
    sectionKeywords.filter (fun kw =>
      strIncludes (lowerStr (jsTrim line)) kw && decide (line.length < 50))))

/-- The ideal section order of `hasLogicalSectionOrder`. -/
def idealOrder : List String :=
  ["summary", "objective", "profile",
   "experience", "work history", "employment",
   "education", "academic",
   "skills", "technical skills", "competencies",
   "projects", "certifications", "awards"]

/-- `Array.prototype.indexOf`: index of the first occurrence, `-1` if absent. -/
def idxOf (x : String) : List String → ℤ
  | [] => -1
  | y :: ys =>
    if y = x then 0
    else
      let r := idxOf x ys
      if r = -1 then -1 else r + 1

/-- The scanning loop of `hasLogicalSectionOrder`. -/
def hasLogicalOrderGo : ℤ → List String → Bool
  | _, [] => true
  | last, s :: rest =>
    let oi := idxOf s idealOrder
    if oi ≠ -1 then
      if oi < last then false else hasLogicalOrderGo oi rest
    else hasLogicalOrderGo last rest

/-- `hasLogicalSectionOrder`. -/
def hasLogicalSectionOrder (sections : List String) : Bool :=
  hasLogicalOrderGo (-1) sections

/-- `calculateStructureScore`. -/
def calculateStructureScore (resumeText : String) : ℤ :=
  let sections := identifyResumeSections resumeText
  let hasEssential := (["experience", "skills", "education"] : List String).all
    (fun sec => sections.any (fun rs => strIncludes rs sec))
  let beneficialCount := ((["summary", "projects", "certifications"] : List String).filter
    (fun sec => sections.any (fun rs => strIncludes rs sec))).length
  let score : ℤ := (if hasEssential then 60 else 0) + (beneficialCount : ℤ) * 10 +
    (if hasLogicalSectionOrder sections then 20 else 0)
  min score 100

/-! ### ats-scorer: details, overall score, result -/

/-- `findMatchedKeywords`. -/
def findMatchedKeywords (resumeKeywords jobKeywords : List String) : List String :=
  jobKeywords.filter (fun jk => resumeKeywords.any (fun rk => isKeywordMatch rk jk))

/-- The static high-importance keyword list of `getKeywordImportance`. -/
def highImportanceKeywordsATS : List String :=
  ["required", "must", "essential", "mandatory",
   "python", "javascript", "react", "aws", "sql"]

/-- `getKeywordImportance` (the simplified importance of the scorer). -/
def getKeywordImportance (keyword : String) : ℚ :=
  if highImportanceKeywordsATS.any (fun imp => strIncludes (lowerStr keyword) imp) then 10
  else 5

/-- `findMissingCriticalKeywords`. -/
def findMissingCriticalKeywords (resumeKeywords jobKeywords : List String) : List String :=
  (jobKeywords.filter (fun kw => decide (8 ≤ getKeywordImportance kw))).filter
    (fun ck => !(resumeKeywords.any (fun rk => isKeywordMatch rk ck)))

/-- `calculateScoreBreakdown`. -/
def calculateScoreBreakdown (resumeText : String) (jobKeywords : List String) :
    ATSScoreBreakdown :=
  let resumeKeywords := extractKeywords resumeText
  { keywordMatch := calculateKeywordMatchScore resumeText jobKeywords
    formatScore := calculateFormatScore resumeText
    contentScore := calculateContentScore resumeText
    lengthScore := calculateLengthScore resumeText
    structureScore := calculateStructureScore resumeText
    details :=
      { totalKeywords := jobKeywords.length
        matchedKeywords := (findMatchedKeywords resumeKeywords jobKeywords).length
        missingCriticalKeywords := findMissingCriticalKeywords resumeKeywords jobKeywords
        formatIssues := identifyFormatIssues resumeText
        contentIssues := identifyContentIssues resumeText } }

/-- `calculateOverallScore`: the weighted sum, rounded. -/
def calculateOverallScore (b : ATSScoreBreakdown) : ℤ :=
  jsRound ((b.keywordMatch : ℚ) * 0.40 + (b.contentScore : ℚ) * 0.25 +
    (b.structureScore : ℚ) * 0.15 + (b.formatScore : ℚ) * 0.10 +
    (b.lengthScore : ℚ) * 0.10)

/-- `generateRecommendations`. -/
def generateRecommendations (b : ATSScoreBreakdown) : List String :=
  ((if b.keywordMatch < 70 then
      ["Add more relevant keywords from the job description"] ++
      (if 0 < b.details.missingCriticalKeywords.length then
        ["Include these critical keywords: " ++
          String.intercalate ", " (b.details.missingCriticalKeywords.take 3)]
      else [])
    else []) ++
   (if b.formatScore < 80 then
      (if b.details.formatIssues.contains "Missing standard sections" then
        ["Add standard resume sections: Experience, Education, Skills"] else []) ++
      (if b.details.formatIssues.contains "Inconsistent spacing" then
        ["Use consistent spacing and formatting throughout"] else [])
    else []) ++
   (if b.contentScore < 80 then
      (if b.details.contentIssues.contains "Missing quantifiable achievements" then
        ["Add numbers, percentages, and metrics to quantify your achievements"] else []) ++
      (if b.details.contentIssues.contains "Weak action verbs" then
        ["Use strong action verbs like \"achieved,\" \"improved,\" \"developed\""] else [])
    else []) ++
   (if b.structureScore < 80 then
      ["Organize sections in logical order: Summary, Experience, Education, Skills"]
    else []) ++
   (if b.lengthScore < 80 then
      (if b.details.totalKeywords < 400 then
        ["Expand your resume with more detailed descriptions (aim for 400-800 words)"]
      else if 800 < b.details.totalKeywords then
        ["Condense your resume to focus on most relevant information (aim for 400-800 words)"]
      else [])
    else [])).take 5

/-- `ATSScorer.calculateATSScore`. -/
def calculateATSScore (resumeText : String) (jobKeywords : List String) : ATSScoreResult :=
  let breakdown := calculateScoreBreakdown resumeText jobKeywords
  let overallScore := calculateOverallScore breakdown
  { score := overallScore
    breakdown := breakdown
    recommendations := generateRecommendations breakdown
    passesATS := decide (70 ≤ overallScore) }

/-- The module-level convenience function `calculateATSScore` (score only). -/
def calculateATSScoreNum (resumeText : String) (jobKeywords : List String) : ℤ :=
  (calculateATSScore resumeText jobKeywords).score

/-! ### job-analyzer: cleaning and salary extraction -/

/-- `SalaryRange`. -/
structure SalaryRange where
  min : Nat
  max : Nat
  currency : String
  period : String
deriving DecidableEq

/-- `cleanJobText`: collapse whitespace (`\s+` → one space), replace
characters outside `[\w\s.,!?()-]` by spaces, trim. -/
def cleanJobText (jobText : String) : String :=
  String.mk (trimWs ((collapseWs jobText.data).map
    (fun c => if isUnusualChar c then ' ' else c)))

/-- ASCII digit (`\d`). -/
def isDigitChar (c : Char) : Bool := 48 ≤ c.toNat && c.toNat ≤ 57

/-- Digit characters to the number they denote. -/
def digitsToNatGo (acc : Nat) : List Char → Nat
  | [] => acc
  | c :: rest => digitsToNatGo (acc * 10 + (c.toNat - 48)) rest

/-- `parseInt(digits.replace(/,/g, ''))` for an already-parsed digit list. -/
def digitsToNat (l : List Char) : Nat := digitsToNatGo 0 l

/-- The `(?:,\d{3})*` groups: consume `,ddd` while present (taking three
digits per group).  When a group has fewer than three digits, or extra
digits follow, the overall pattern fails afterwards exactly as the
backtracking regex does, so the deterministic scan is equivalent. -/
def parseCommaGroupsGo : Nat → List Char → List Char → List Char × List Char
  | 0, acc, rest => (acc, rest)
  | Nat.succ fuel, acc, rest =>
    match rest with
    | ',' :: r =>
      let g := r.takeWhile isDigitChar
      if 3 ≤ g.length then parseCommaGroupsGo fuel (acc ++ g.take 3) (r.drop 3)
      else (acc, rest)
    | _ => (acc, rest)

/-- `\d{1,3}(?:,\d{3})*` at the front of the text: the collected digits
(commas dropped) and the rest.  The 1–3 digit run must be maximal (a
fourth digit makes every backtracking alternative fail). -/
def parseCommaNum (l : List Char) : Option (List Char × List Char) :=
  let run := l.takeWhile isDigitChar
  if run.length = 0 || 3 < run.length then none
  else some (parseCommaGroupsGo l.length run (l.drop run.length))

/-- Pattern 1 of `extractSalaryRange` at the front of the text:
`\$(\d{1,3}(?:,\d{3})*)\s*-\s*\$(\d{1,3}(?:,\d{3})*)\s*(per year|annually|yearly)`
with the `i` flag. -/
def matchSalaryPat1At (l : List Char) : Option (Nat × Nat) :=
  match l with
  | '$' :: r1 =>
    match parseCommaNum r1 with
    | none => none
    | some (d1, r2) =>
      match r2.dropWhile isJsWs with
      | '-' :: r3 =>
        match r3.dropWhile isJsWs with
        | '$' :: r4 =>
          match parseCommaNum r4 with
          | none => none
          | some (d2, r5) =>
            let tail := (r5.dropWhile isJsWs).map jsToLower
            if "per year".data.isPrefixOf tail || "annually".data.isPrefixOf tail ||
                "yearly".data.isPrefixOf tail then
              some (digitsToNat d1, digitsToNat d2)
            else none
        | _ => none
      | _ => none
  | _ => none

/-- Pattern 2 at the front: `\$(\d{1,3}(?:,\d{3})*)\s*-\s*\$(\d{1,3}(?:,\d{3})*)\s*k`
with the `i` flag. -/
def matchSalaryPat2At (l : List Char) : Option (Nat × Nat) :=
  match l with
  | '$' :: r1 =>
    match parseCommaNum r1 with
    | none => none
    | some (d1, r2) =>
      match r2.dropWhile isJsWs with
      | '-' :: r3 =>
        match r3.dropWhile isJsWs with
        | '$' :: r4 =>
          match parseCommaNum r4 with
          | none => none
          | some (d2, r5) =>
            match r5.dropWhile isJsWs with
            | c :: _ => if jsToLower c = 'k' then some (digitsToNat d1, digitsToNat d2) else none
            | [] => none
        | _ => none
      | _ => none
  | _ => none

/-- `(\d{1,3})k` at the front (the run of digits maximal, `i` flag). -/
def parseShortNumK (l : List Char) : Option (List Char × List Char) :=
  let run := l.takeWhile isDigitChar
  if run.length = 0 || 3 < run.length then none
  else
    match l.drop run.length with
    | c :: r => if jsToLower c = 'k' then some (run, r) else none
    | [] => none

/-- Pattern 3 at the front: `(\d{1,3})k\s*-\s*(\d{1,3})k` with the `i` flag. -/
def matchSalaryPat3At (l : List Char) : Option (Nat × Nat) :=
  match parseShortNumK l with
  | none => none
  | some (d1, r1) =>
    match r1.dropWhile isJsWs with
    | '-' :: r2 =>
      match parseShortNumK (r2.dropWhile isJsWs) with
      | none => none
      | some (d2, _) => some (digitsToNat d1, digitsToNat d2)
    | _ => none

/-- `String.prototype.match` without `g`: the leftmost position where the
pattern matches. -/
def scanFirst (m : List Char → Option (Nat × Nat)) : List Char → Option (Nat × Nat)
  | [] => m []
  | c :: rest =>
    match m (c :: rest) with
    | some v => some v
    | none => scanFirst m rest

/-- `extractSalaryRange`: the three patterns tried in order; patterns whose
source contains `k` multiply both bounds by 1000; currency and period are
fixed. -/
def extractSalaryRange (jobText : String) : Option SalaryRange :=
  match scanFirst matchSalaryPat1At jobText.data with
  | some (mn, mx) => some { min := mn, max := mx, currency := "USD", period := "yearly" }
  | none =>
    match scanFirst matchSalaryPat2At jobText.data with
    | some (mn, mx) =>
      some { min := mn * 1000, max := mx * 1000, currency := "USD", period := "yearly" }
    | none =>
      match scanFirst matchSalaryPat3At jobText.data with
      | some (mn, mx) =>
        some { min := mn * 1000, max := mx * 1000, currency := "USD", period := "yearly" }
      | none => none

/-- The `salary` field of `analyzeJobPosting`: the pipeline first cleans
the whole job text with `cleanJobText` and then runs `extractSalaryRange`
on the cleaned text. -/
def analyzeJobPostingSalary (jobText : String) : Option SalaryRange :=
  extractSalaryRange (cleanJobText jobText)

/-! ### tailor-engine: data model -/

/-- The `'high' | 'medium' | 'low'` importance of the tailoring engine. -/
inductive ImportanceTier
  | high
  | medium
  | low
deriving DecidableEq

/-- `KeywordMatch` (tailor-engine). -/
structure KeywordMatch where
  keyword : String
  inResume : Bool
  frequency : Nat
  importance : ImportanceTier
  suggestedPlacements : List String
deriving DecidableEq

/-- `TailordSuggestion` (`section` is a Lean keyword, hence `sectionName`). -/
structure TailordSuggestion where
  sectionName : String
  original : String
  suggested : String
  reason : String
  impact : ℤ
deriving DecidableEq

/-- One parsed resume section of `parseResumeIntoSections`. -/
structure ResumeSection where
  name : String
  content : String
  startIndex : Nat
deriving DecidableEq

/-- `TailoringResult`. -/
structure TailoringResult where
  tailoredResume : String
  atsScore : ℤ
  keywordMatches : List KeywordMatch
  suggestions : List TailordSuggestion
  improvements : List String
  originalScore : ℤ
deriving DecidableEq

/-! ### keyword-analyzer: suggested placements (used by the tailor engine) -/

/-- Index just past the last `'\n'` of the list, if any. -/
def lastIdxNl : List Char → Option Nat
  | [] => none
  | c :: rest =>
    match lastIdxNl rest with
    | some i => some (i + 1)
    | none => if c = '\n' then some 0 else none

/-- JS `split(/\n\s*\n/)`: a match runs from a `'\n'` through the last
`'\n'` of the whitespace run that follows it (the greedy `\s*` backtracks
to end on a newline).  Fuel is the text length. -/
def splitBlocksGo : Nat → List Char → List Char → List (List Char)
  | 0, acc, _ => [acc.reverse]
  | _, acc, [] => [acc.reverse]
  | Nat.succ fuel, acc, c :: rest =>
    if c = '\n' then
      match lastIdxNl (rest.takeWhile isJsWs) with
      | some i => acc.reverse :: splitBlocksGo fuel [] (rest.drop (i + 1))
      | none => splitBlocksGo fuel (c :: acc) rest
    else splitBlocksGo fuel (c :: acc) rest

/-- `resumeText.split(/\n\s*\n/)`. -/
def splitBlocks (s : String) : List String :=
  (splitBlocksGo s.data.length [] s.data).map String.mk

/-- `suggestKeywordPlacements`. -/
def suggestKeywordPlacements (keyword resumeText : String) : List String :=
  let sections := splitBlocks resumeText
  let s1 :=
    if categorizeKeyword keyword = Category.technical then
      match sections.find? (fun sec =>
        strIncludes (lowerStr sec) "skill" || strIncludes (lowerStr sec) "technical") with
      | some skillsSection =>
        if !(strIncludes (lowerStr skillsSection) (lowerStr keyword)) then
          ["Add to Skills/Technical Skills section"]
        else []
      | none => []
    else []
  let s2 :=
    if categorizeKeyword keyword = Category.action then
      match sections.find? (fun sec =>
        strIncludes (lowerStr sec) "experience" || strIncludes (lowerStr sec) "work history") with
      | some expSection =>
        if !(strIncludes (lowerStr expSection) (lowerStr keyword)) then
          ["Incorporate into job descriptions in Experience section"]
        else []
      | none => []
    else []
  if (s1 ++ s2).isEmpty then
    ["Add to relevant bullet points in Experience section",
     "Include in Skills section if applicable",
     "Mention in Summary/Objective section"]
  else s1 ++ s2

/-! ### tailor-engine: analysis and suggestions -/

/-- `countKeywordFrequency`: the keyword's regex metacharacters are escaped
and the count is case-insensitive (`'gi'`), i.e. a literal non-overlapping
count on the lower-cased strings. -/
def countKeywordFrequency (text keyword : String) : Nat :=
  let p := keyword.data.map jsToLower
  let t := text.data.map jsToLower
  if p.isEmpty then t.length + 1 else countLiteralGo p t.length t

/-- `highPriorityPatterns` of `determineKeywordImportance`. -/
def highPriorityPatterns : List String :=
  ["required", "must have", "essential", "critical", "mandatory",
   "python", "javascript", "react", "aws", "sql", "docker"]

/-- `mediumPriorityPatterns` of `determineKeywordImportance`. -/
def mediumPriorityPatterns : List String :=
  ["preferred", "desired", "nice to have", "bonus",
   "git", "agile", "scrum", "testing"]

/-- `determineKeywordImportance`. -/
def determineKeywordImportance (keyword : String) : ImportanceTier :=
  let lk := lowerStr keyword
  if highPriorityPatterns.any (fun p => strIncludes lk p) then ImportanceTier.high
  else if mediumPriorityPatterns.any (fun p => strIncludes lk p) then ImportanceTier.medium
  else ImportanceTier.low

/-- `analyzeKeywordMatches`. -/
def analyzeKeywordMatches (jobKeywords resumeKeywords : List String) (resumeText : String) :
    List KeywordMatch :=
  jobKeywords.map (fun keyword =>
    { keyword := keyword
      inResume := resumeKeywords.any (fun rk =>
        strIncludes (lowerStr rk) (lowerStr keyword) ||
        strIncludes (lowerStr keyword) (lowerStr rk))
      frequency := countKeywordFrequency resumeText keyword
      importance := determineKeywordImportance keyword
      suggestedPlacements := suggestKeywordPlacements keyword resumeText })

/-- The section headers recognized by `parseResumeIntoSections`. -/
def tailorSectionHeaders : List String :=
  ["summary", "objective", "experience", "work experience", "employment",
   "skills", "technical skills", "education", "projects", "achievements",
   "certifications", "awards"]

/-- The line loop of `parseResumeIntoSections`: a section is pushed when a
new header starts (if its content is non-empty after trimming) and the
current section is pushed after the last line under the same condition. -/
def parseResumeGo : List ResumeSection → ResumeSection → Nat → List String → List ResumeSection
  | secs, cur, _, [] =>
    if jsTrim cur.content ≠ "" then secs ++ [cur] else secs
  | secs, cur, idx, line :: rest =>
    let lowercaseLine := lowerStr (jsTrim line)
    match tailorSectionHeaders.find?
        (fun h => strIncludes lowercaseLine h && decide (line.length < 50)) with
    | some foundHeader =>
      let secs' := if jsTrim cur.content ≠ "" then secs ++ [cur] else secs
      parseResumeGo secs' { name := foundHeader, content := line ++ "\n", startIndex := idx }
        (idx + 1) rest
    | none =>
      parseResumeGo secs { cur with content := cur.content ++ line ++ "\n" } (idx + 1) rest

/-- `parseResumeIntoSections`. -/
def parseResumeIntoSections (resumeText : String) : List ResumeSection :=
  parseResumeGo [] { name := "header", content := "", startIndex := 0 } 0
    ((splitOnChar '\n' resumeText.data).map String.mk)

/-- `technicalPatterns` of `isTechnicalKeyword`. -/
def technicalPatterns : List String :=
  ["python", "javascript", "react", "node", "sql", "aws", "docker",
   "kubernetes", "git", "api", "database", "cloud", "devops"]

/-- `isTechnicalKeyword`. -/
def isTechnicalKeyword (keyword : String) : Bool :=
  technicalPatterns.any (fun p => strIncludes (lowerStr keyword) p)

/-- `actionPatterns` of `isActionKeyword`. -/
def actionPatterns : List String :=
  ["developed", "implemented", "managed", "led", "created",
   "designed", "optimized", "improved", "collaborated"]

/-- `isActionKeyword`. -/
def isActionKeyword (keyword : String) : Bool :=
  actionPatterns.any (fun p => strIncludes (lowerStr keyword) p)

/-- `findBestSectionForKeyword` (`undefined` is `none`). -/
def findBestSectionForKeyword (keyword : String) (sections : List ResumeSection) :
    Option ResumeSection :=
  if isTechnicalKeyword keyword then
    match sections.find? (fun s => strIncludes s.name "skill") with
    | some s => some s
    | none => sections.head?
  else if isActionKeyword keyword then
    match sections.find? (fun s =>
      strIncludes s.name "experience" || strIncludes s.name "employment") with
    | some s => some s
    | none => sections.head?
  else
    match sections.find? (fun s => !(s.name = "header")) with
    | some s => some s
    | none => sections.head?

/-- `enhanceLineWithKeyword`. -/
def enhanceLineWithKeyword (line keyword : String) : String :=
  if strIncludes line "experience" || strIncludes line "worked" then
    jsReplaceFirst line "experience" ("experience with " ++ keyword)
  else if line.data.head? = some (Char.ofNat 8226) || line.data.head? = some '-' then
    line ++ " utilizing " ++ keyword
  else line ++ " (" ++ keyword ++ ")"

/-- The line loop of `incorporateKeyword`: the first trimmed line that is a
bullet or mentions "experience" and does not already contain the keyword
is replaced (by its enhanced, trimmed form); the loop then stops. -/
def incorporateKeywordGo (keyword : String) : List String → List String
  | [] => []
  | l :: rest =>
    let line := jsTrim l
    if line.data.head? = some (Char.ofNat 8226) || line.data.head? = some '-' ||
        strIncludes line "experience" then
      if !(strIncludes (lowerStr line) (lowerStr keyword)) then
        enhanceLineWithKeyword line keyword :: rest
      else l :: incorporateKeywordGo keyword rest
    else l :: incorporateKeywordGo keyword rest

/-- `incorporateKeyword`. -/
def incorporateKeyword (sectionContent keyword : String) : String :=
  String.intercalate "\n"
    (incorporateKeywordGo keyword ((splitOnChar '\n' sectionContent.data).map String.mk))

/-- `strengthenWeakSections`. -/
def strengthenWeakSections (sections : List ResumeSection) (keywordMatches : List KeywordMatch)
    (targetRole : String) : List TailordSuggestion :=
  sections.filterMap (fun sec =>
    let sectionKeywordCount := (keywordMatches.filter (fun km =>
      strIncludes (lowerStr sec.content) (lowerStr km.keyword))).length
    if decide (sectionKeywordCount < 2) && !(sec.name = "header") then
      let relevantKeywords := (keywordMatches.filter (fun km =>
        !km.inResume && !(decide (km.importance = ImportanceTier.low)))).take 2
      if decide (0 < relevantKeywords.length) then
        some
          { sectionName := sec.name
            original := sec.content
            suggested := relevantKeywords.foldl (fun c km => incorporateKeyword c km.keyword)
              sec.content
            reason := "Strengthen " ++ sec.name ++ " section with relevant keywords"
            impact := 10 }
      else none
    else none)

/-- `optimizeKeywordDensity`. -/
def optimizeKeywordDensity (sections : List ResumeSection) (keywordMatches : List KeywordMatch) :
    List TailordSuggestion :=
  keywordMatches.filterMap (fun km =>
    if km.inResume && decide (0 < km.frequency) then
      let density := calculateKeywordDensity
        (String.intercalate " " (sections.map (fun s => s.content))) km.keyword
      if decide (3 < density) then
        some
          { sectionName := "overall"
            original := km.keyword
            suggested := "Reduce repetition of \"" ++ km.keyword ++ "\""
            reason := "Avoid keyword stuffing which can hurt ATS scoring"
            impact := -5 }
      else if decide (density < 0.5) && decide (km.importance = ImportanceTier.high) then
        some
          { sectionName := "overall"
            original := km.keyword
            suggested := "Increase usage of \"" ++ km.keyword ++ "\""
            reason := "Important keyword needs more presence in resume"
            impact := 8 }
      else none
    else none)

/-- Stable insertion for the descending sort on impact. -/
def insertByImpact (x : TailordSuggestion) : List TailordSuggestion → List TailordSuggestion
  | [] => [x]
  | y :: ys => if y.impact ≤ x.impact then x :: y :: ys else y :: insertByImpact x ys

/-- `sort((a, b) => b.impact - a.impact)`: stable descending sort. -/
def sortByImpactDesc : List TailordSuggestion → List TailordSuggestion
  | [] => []
  | x :: xs => insertByImpact x (sortByImpactDesc xs)

/-- `generateTailoringSuggestions`. -/
def generateTailoringSuggestions (resumeText : String) (keywordMatches : List KeywordMatch)
    (targetRole : String) : List TailordSuggestion :=
  let resumeSections := parseResumeIntoSections resumeText
  let missingHigh := keywordMatches.filter (fun km =>
    !km.inResume && decide (km.importance = ImportanceTier.high))
  let s1 := missingHigh.filterMap (fun km =>
    match findBestSectionForKeyword km.keyword resumeSections with
    | some bestSection =>
      some
        { sectionName := bestSection.name
          original := bestSection.content
          suggested := incorporateKeyword bestSection.content km.keyword
          reason := "Add high-priority keyword \"" ++ km.keyword ++ "\" to improve ATS matching"
          impact := 15 }
    | none => none)
  sortByImpactDesc
    (s1 ++ strengthenWeakSections resumeSections keywordMatches targetRole ++
      optimizeKeywordDensity resumeSections keywordMatches)

/-- `applyTailoringChanges`: apply each suggestion in order, replacing the
first occurrence of `original` when it is present in the current text. -/
def applyTailoringChanges (resumeText : String) (suggestions : List TailordSuggestion) : String :=
  suggestions.foldl
    (fun t s => if strIncludes t s.original then jsReplaceFirst t s.original s.suggested else t)
    resumeText

/-- `generateImprovements`. -/
def generateImprovements (keywordMatches : List KeywordMatch)
    (suggestions : List TailordSuggestion) : List String :=
  (if 0 < (keywordMatches.filter (fun km => !km.inResume)).length then
    ["Add " ++ toString (keywordMatches.filter (fun km => !km.inResume)).length ++
      " missing keywords to improve job match"]
  else []) ++
  (if 0 < (suggestions.filter (fun s => decide (10 < s.impact))).length then
    [toString (suggestions.filter (fun s => decide (10 < s.impact))).length ++
      " high-impact changes identified"]
  else []) ++
  (if 0 < (suggestions.filter (fun s => strIncludes s.reason "Strengthen")).length then
    ["Strengthen " ++
      toString (suggestions.filter (fun s => strIncludes s.reason "Strengthen")).length ++
      " sections with relevant keywords"]
  else [])

/-- `ResumeTagiloringEngine.tailorResume` (the `await`s are pure calls). -/
def tailorResume (resumeText jobDescription targetRole : String) : TailoringResult :=
  let jobKeywords := extractKeywords jobDescription
  let originalScore := calculateATSScoreNum resumeText jobKeywords
  let currentKeywords := extractKeywords resumeText
  let keywordMatches := analyzeKeywordMatches jobKeywords currentKeywords resumeText
  let suggestions := generateTailoringSuggestions resumeText keywordMatches targetRole
  let tailoredResume := applyTailoringChanges resumeText suggestions
  let newATSScore := calculateATSScoreNum tailoredResume jobKeywords
  let improvements := generateImprovements keywordMatches suggestions
  { tailoredResume := tailoredResume
    atsScore := newATSScore
    keywordMatches := keywordMatches
    suggestions := suggestions
    improvements := improvements
    originalScore := originalScore }

/-- `ResumeOptimizer.applySuggestions`: like `applyTailoringChanges` but
guarded by the truthiness (non-emptiness) of both fields. -/
def applySuggestions (resume : String) (suggestions : List TailordSuggestion) : String :=
  suggestions.foldl
    (fun t s =>
      if !(s.original = "") && !(s.suggested = "") then jsReplaceFirst t s.original s.suggested
      else t)
    resume

/-- The number of job keywords matched in a resume by the tailoring
engine's own criterion (the `inResume` flag of `analyzeKeywordMatches`). -/
def matchedKeywordCount (resumeText : String) (jobKeywords : List String) : Nat :=
  ((analyzeKeywordMatches jobKeywords (extractKeywords resumeText) resumeText).filter
    (fun km => km.inResume)).length

/-! ### Auxiliary definitions for the stated properties -/

/-- Modelled from the spec (claim C5): the word-count bands exactly as the
specification states them — 400–800 → 100, else 300–1000 → 85, else
200–1200 → 70, under 200 → 40, anything else → 50. -/
def lengthBandSpec (wc : Nat) : ℤ :=
  if 400 ≤ wc ∧ wc ≤ 800 then 100
  else if 300 ≤ wc ∧ wc ≤ 1000 then 85
  else if 200 ≤ wc ∧ wc ≤ 1200 then 70
  else if wc < 200 then 40
  else 50

/-- The text formed from a list of keyword strings, joined by single
spaces (the input of the re-extraction in claim C8). -/
def joinSpData : List (List Char) → List Char
  | [] => []
  | [k] => k
  | k :: ks => k ++ ' ' :: joinSpData ks

/-- `joinSpData` on strings. -/
def joinSp (ks : List String) : String :=
  String.mk (joinSpData (ks.map (fun k => k.data)))

/-- A character that may occur inside an extracted keyword token:
`[\w.-]`. -/
def isKeywordChar (c : Char) : Bool := isWordChar c || c = '.' || c = '-'

/-- The first character, if any, is not whitespace. -/
def headNotWs (l : List Char) : Bool :=
  match l.head? with
  | some c => !isJsWs c
  | none => true

/-- The last character, if any, is not whitespace. -/
def lastNotWs (l : List Char) : Bool :=
  match l.getLast? with
  | some c => !isJsWs c
  | none => true

/-- No two adjacent whitespace characters. -/
def noAdjWs : List Char → Bool
  | a :: b :: rest => !(isJsWs a && isJsWs b) && noAdjWs (b :: rest)
  | _ => true

/-- A text that the cleaning step of `extractKeywords` maps to itself:
every character is a space or a lower-case keyword character, it neither
starts nor ends with whitespace, and has no two adjacent whitespace
characters. -/
def cleanForm (l : List Char) : Prop :=
  (∀ c ∈ l, (c = ' ' ∨ (isKeywordChar c = true ∧ isJsWs c = false)) ∧ jsToLower c = c) ∧
  headNotWs l = true ∧ lastNotWs l = true ∧ noAdjWs l = true

/-- The shape every keyword produced by `extractKeywords` has: non-empty
and in clean form. -/
def goodKeyword (k : String) : Prop := k.data ≠ [] ∧ cleanForm k.data

/-! ## Lemmas: rounding and score bounds -/

theorem jsMinQ_eq_min (a b : ℚ) : jsMinQ a b = min a b := by
  rw [jsMinQ, min_def]

theorem jsMaxQ_eq_max (a b : ℚ) : jsMaxQ a b = max a b := by
  rw [jsMaxQ, max_def]


theorem jsRound_nonneg {q : ℚ} (h : 0 ≤ q) : 0 ≤ jsRound q := by
  unfold jsRound
  exact Int.le_floor.mpr (by push_cast; linarith)

theorem jsRound_le_100 {q : ℚ} (h : q ≤ 100) : jsRound q ≤ 100 := by
  unfold jsRound
  have h2 : ⌊q + 1 / 2⌋ < 101 := by
    rw [Int.floor_lt]
    push_cast
    linarith
  omega

theorem calculateFormatScore_bounds (r : String) :
    0 ≤ calculateFormatScore r ∧ calculateFormatScore r ≤ 100 := by
  unfold calculateFormatScore
  refine ⟨le_max_right _ _, max_le ?_ (by norm_num)⟩
  have h : (0 : ℤ) ≤ ((((identifyFormatIssues r).map formatDeduction).sum : ℕ) : ℤ) :=
    Int.natCast_nonneg _
  linarith

theorem calculateContentScore_bounds (r : String) :
    0 ≤ calculateContentScore r ∧ calculateContentScore r ≤ 100 := by
  unfold calculateContentScore
  refine ⟨le_max_right _ _, max_le ?_ (by norm_num)⟩
  have h : (0 : ℤ) ≤ ((((identifyContentIssues r).map contentDeduction).sum : ℕ) : ℤ) :=
    Int.natCast_nonneg _
  linarith

theorem calculateLengthScore_bounds (r : String) :
    0 ≤ calculateLengthScore r ∧ calculateLengthScore r ≤ 100 := by
  simp only [calculateLengthScore]
  split_ifs <;> norm_num

theorem calculateStructureScore_bounds (r : String) :
    0 ≤ calculateStructureScore r ∧ calculateStructureScore r ≤ 100 := by
  simp only [calculateStructureScore]
  refine ⟨le_min ?_ (by norm_num), min_le_right _ _⟩
  have h : (0 : ℤ) ≤ (((((["summary", "projects", "certifications"] : List String).filter
      (fun sec => (identifyResumeSections r).any (fun rs => strIncludes rs sec))).length : ℕ)) : ℤ) :=
    Int.natCast_nonneg _
  split_ifs <;> linarith

/-! ## Lemmas: importance is non-negative -/

theorem keyword_weights_nonneg (c : Category) : ∀ p ∈ KEYWORD_WEIGHTS c, 0 ≤ p.2 := by
  cases c <;> decide

theorem foldl_le_of_le (g : ℚ → String × ℚ → ℚ) (hg : ∀ b p, b ≤ g b p) :
    ∀ (l : List (String × ℚ)) (b : ℚ), b ≤ l.foldl g b := by
  intro l
  induction l with
  | nil => intro b; simp
  | cons p ps ih => intro b; exact le_trans (hg b p) (ih (g b p))

theorem importanceBase_nonneg (kw : String) (c : Category) : 0 ≤ importanceBase kw c := by
  simp only [importanceBase]
  split
  · rename_i p heq
    have hp := keyword_weights_nonneg c p (List.mem_of_find?_eq_some heq)
    split_ifs <;> [norm_num; exact hp]
  · refine le_trans (by norm_num : (0:ℚ) ≤ 5) (foldl_le_of_le _ ?_ _ 5)
    intro b p
    split_ifs
    · rw [jsMaxQ_eq_max]; exact le_max_left _ _
    · exact le_refl b

theorem requiredBoost_nonneg (ctx : String) : 0 ≤ requiredBoost ctx := by
  simp only [requiredBoost]
  split_ifs <;> norm_num

theorem yearsBoost_nonneg (kw ctx : String) : 0 ≤ yearsBoost kw ctx := by
  simp only [yearsBoost]
  split_ifs <;> norm_num

theorem freqBoost_nonneg (kw ctx : String) : 0 ≤ freqBoost kw ctx := by
  simp only [freqBoost]
  split_ifs with h
  · rw [jsMinQ_eq_min]
    refine le_min ?_ (by norm_num)
    have h3 : (3 : ℚ) ≤ (kwFrequency kw ctx : ℚ) := by exact_mod_cast (by omega : 3 ≤ kwFrequency kw ctx)
    linarith
  · exact le_refl 0

theorem calculateKeywordImportance_nonneg (kw : String) (c : Category) (ctx : String) :
    0 ≤ calculateKeywordImportance kw c ctx := by
  unfold calculateKeywordImportance
  rw [jsMinQ_eq_min]
  refine le_min ?_ (by norm_num)
  have h1 := importanceBase_nonneg kw c
  have h2 := requiredBoost_nonneg ctx
  have h3 := yearsBoost_nonneg kw ctx
  have h4 := freqBoost_nonneg kw ctx
  linarith

theorem mem_insertByImportance {x y : KeywordImportance} {l : List KeywordImportance}
    (h : x ∈ insertByImportance y l) : x = y ∨ x ∈ l := by
  induction l with
  | nil =>
    rw [insertByImportance] at h
    exact Or.inl (List.mem_singleton.mp h)
  | cons z zs ih =>
    rw [insertByImportance] at h
    split at h
    · rcases List.mem_cons.mp h with h1 | h2
      · exact Or.inl h1
      · exact Or.inr h2
    · rcases List.mem_cons.mp h with h1 | h2
      · exact Or.inr (by rw [h1]; exact List.mem_cons_self z zs)
      · rcases ih h2 with h3 | h4
        · exact Or.inl h3
        · exact Or.inr (List.mem_cons_of_mem _ h4)

theorem mem_sortByImportanceDesc {x : KeywordImportance} {l : List KeywordImportance}
    (h : x ∈ sortByImportanceDesc l) : x ∈ l := by
  induction l with
  | nil => rw [sortByImportanceDesc] at h; exact absurd h (List.not_mem_nil x)
  | cons y ys ih =>
    rw [sortByImportanceDesc] at h
    rcases mem_insertByImportance h with h1 | h2
    · rw [h1]; exact List.mem_cons_self y ys
    · exact List.mem_cons_of_mem _ (ih h2)

theorem analyzeKeywordImportance_nonneg (ks : List String) (ctx : String) :
    ∀ ki ∈ analyzeKeywordImportance ks ctx, 0 ≤ ki.importance := by
  intro ki hki
  rw [analyzeKeywordImportance] at hki
  rcases List.mem_map.mp (mem_sortByImportanceDesc hki) with ⟨kw, _, rfl⟩
  exact calculateKeywordImportance_nonneg kw _ ctx

theorem totalImportanceOf_nonneg {kis : List KeywordImportance}
    (h : ∀ ki ∈ kis, 0 ≤ ki.importance) : 0 ≤ totalImportanceOf kis := by
  unfold totalImportanceOf
  refine List.sum_nonneg ?_
  intro x hx
  rcases List.mem_map.mp hx with ⟨ki, hki, rfl⟩
  exact h ki hki

theorem matchedImportanceOf_nonneg {rks : List String} {kis : List KeywordImportance}
    (h : ∀ ki ∈ kis, 0 ≤ ki.importance) : 0 ≤ matchedImportanceOf rks kis := by
  unfold matchedImportanceOf
  refine List.sum_nonneg ?_
  intro x hx
  rcases List.mem_map.mp hx with ⟨ki, hki, rfl⟩
  split_ifs
  · exact h ki hki
  · exact le_refl 0

theorem calculateKeywordMatchScore_bounds (r : String) (ks : List String) :
    0 ≤ calculateKeywordMatchScore r ks ∧ calculateKeywordMatchScore r ks ≤ 100 := by
  simp only [calculateKeywordMatchScore]
  split_ifs with h1 h2
  · norm_num
  · norm_num
  · constructor
    · refine le_min ?_ (by norm_num)
      refine jsRound_nonneg ?_
      have ht : 0 ≤ totalImportanceOf (analyzeKeywordImportance ks r) :=
        totalImportanceOf_nonneg (analyzeKeywordImportance_nonneg ks r)
      have hm : 0 ≤ matchedImportanceOf (extractKeywords r) (analyzeKeywordImportance ks r) :=
        matchedImportanceOf_nonneg (analyzeKeywordImportance_nonneg ks r)
      exact mul_nonneg (div_nonneg hm ht) (by norm_num)
    · exact min_le_right _ _

theorem calculateOverallScore_bounds {b : ATSScoreBreakdown}
    (hk0 : 0 ≤ b.keywordMatch) (hk1 : b.keywordMatch ≤ 100)
    (hc0 : 0 ≤ b.contentScore) (hc1 : b.contentScore ≤ 100)
    (hs0 : 0 ≤ b.structureScore) (hs1 : b.structureScore ≤ 100)
    (hf0 : 0 ≤ b.formatScore) (hf1 : b.formatScore ≤ 100)
    (hl0 : 0 ≤ b.lengthScore) (hl1 : b.lengthScore ≤ 100) :
    0 ≤ calculateOverallScore b ∧ calculateOverallScore b ≤ 100 := by
  unfold calculateOverallScore
  have k0 : (0 : ℚ) ≤ (b.keywordMatch : ℚ) := by exact_mod_cast hk0
  have k1 : (b.keywordMatch : ℚ) ≤ 100 := by exact_mod_cast hk1
  have c0 : (0 : ℚ) ≤ (b.contentScore : ℚ) := by exact_mod_cast hc0
  have c1 : (b.contentScore : ℚ) ≤ 100 := by exact_mod_cast hc1
  have s0 : (0 : ℚ) ≤ (b.structureScore : ℚ) := by exact_mod_cast hs0
  have s1 : (b.structureScore : ℚ) ≤ 100 := by exact_mod_cast hs1
  have f0 : (0 : ℚ) ≤ (b.formatScore : ℚ) := by exact_mod_cast hf0
  have f1 : (b.formatScore : ℚ) ≤ 100 := by exact_mod_cast hf1
  have l0 : (0 : ℚ) ≤ (b.lengthScore : ℚ) := by exact_mod_cast hl0
  have l1 : (b.lengthScore : ℚ) ≤ 100 := by exact_mod_cast hl1
  constructor
  · exact jsRound_nonneg (by linarith)
  · exact jsRound_le_100 (by linarith)

/-! ## The claims about the ATS scorer -/

theorem calculateOverallScore_eq_spec_form (b : ATSScoreBreakdown) :
    calculateOverallScore b =
      jsRound (0.40 * (b.keywordMatch : ℚ) + 0.25 * (b.contentScore : ℚ) +
        0.15 * (b.structureScore : ℚ) + 0.10 * (b.formatScore : ℚ) +
        0.10 * (b.lengthScore : ℚ)) := by
  unfold calculateOverallScore
  congr 1
  ring

/-- C1: for every resume text and job keyword list, the overall score of
`calculateATSScore` equals `round(0.40·keywordMatch + 0.25·contentScore +
0.15·structureScore + 0.10·formatScore + 0.10·lengthScore)` of the
sub-scores of its own breakdown, and the five weights sum to 1. -/
theorem claim_C1_overall_is_weighted_round (resumeText : String) (jobKeywords : List String) :
    (calculateATSScore resumeText jobKeywords).score =
      jsRound (0.40 * ((calculateATSScore resumeText jobKeywords).breakdown.keywordMatch : ℚ) +
        0.25 * ((calculateATSScore resumeText jobKeywords).breakdown.contentScore : ℚ) +
        0.15 * ((calculateATSScore resumeText jobKeywords).breakdown.structureScore : ℚ) +
        0.10 * ((calculateATSScore resumeText jobKeywords).breakdown.formatScore : ℚ) +
        0.10 * ((calculateATSScore resumeText jobKeywords).breakdown.lengthScore : ℚ)) ∧
    (0.40 + 0.25 + 0.15 + 0.10 + 0.10 : ℚ) = 1 :=
  ⟨calculateOverallScore_eq_spec_form (calculateScoreBreakdown resumeText jobKeywords),
   by norm_num⟩

/-- C2: for every resume text and job keyword list, the overall score and
all five sub-scores of the breakdown of `calculateATSScore` lie in
`[0, 100]`. -/
theorem claim_C2_scores_in_range (resumeText : String) (jobKeywords : List String) :
    (0 ≤ (calculateATSScore resumeText jobKeywords).score ∧
      (calculateATSScore resumeText jobKeywords).score ≤ 100) ∧
    (0 ≤ (calculateATSScore resumeText jobKeywords).breakdown.keywordMatch ∧
      (calculateATSScore resumeText jobKeywords).breakdown.keywordMatch ≤ 100) ∧
    (0 ≤ (calculateATSScore resumeText jobKeywords).breakdown.formatScore ∧
      (calculateATSScore resumeText jobKeywords).breakdown.formatScore ≤ 100) ∧
    (0 ≤ (calculateATSScore resumeText jobKeywords).breakdown.contentScore ∧
      (calculateATSScore resumeText jobKeywords).breakdown.contentScore ≤ 100) ∧
    (0 ≤ (calculateATSScore resumeText jobKeywords).breakdown.lengthScore ∧
      (calculateATSScore resumeText jobKeywords).breakdown.lengthScore ≤ 100) ∧
    (0 ≤ (calculateATSScore resumeText jobKeywords).breakdown.structureScore ∧
      (calculateATSScore resumeText jobKeywords).breakdown.structureScore ≤ 100) := by
  have hk := calculateKeywordMatchScore_bounds resumeText jobKeywords
  have hf := calculateFormatScore_bounds resumeText
  have hc := calculateContentScore_bounds resumeText
  have hl := calculateLengthScore_bounds resumeText
  have hs := calculateStructureScore_bounds resumeText
  exact ⟨calculateOverallScore_bounds hk.1 hk.2 hc.1 hc.2 hs.1 hs.2 hf.1 hf.2 hl.1 hl.2,
    hk, hf, hc, hl, hs⟩

/-- C3: with an empty job keyword list the keywordMatch sub-score is
exactly 100, whatever the resume text. -/
theorem claim_C3_empty_job_keywords (resumeText : String) :
    (calculateATSScore resumeText []).breakdown.keywordMatch = 100 := rfl

/-- C4: the `passesATS` flag of `calculateATSScore` is true exactly when
the overall score of the same result is at least 70. -/
theorem claim_C4_passesATS_iff_70 (resumeText : String) (jobKeywords : List String) :
    (calculateATSScore resumeText jobKeywords).passesATS = true ↔
      70 ≤ (calculateATSScore resumeText jobKeywords).score :=
  ⟨fun h => of_decide_eq_true h, fun h => decide_eq_true h⟩

/-- C5: the lengthScore sub-score is determined by the whitespace-split
word count through the spec's bands, and the band of word count 850 is
85. -/
theorem claim_C5_length_bands :
    (∀ (resumeText : String) (jobKeywords : List String),
      (calculateATSScore resumeText jobKeywords).breakdown.lengthScore =
        lengthBandSpec (wordCount resumeText)) ∧
    lengthBandSpec 850 = 85 :=
  ⟨fun _ _ => rfl, by decide⟩

/-! ## The claims about the job-posting analyzer and keyword importance -/

/-- C6 (code-bug evidence): on the spec's own scenario text the salary
regex patterns do extract `{min: 120000, max: 160000, USD, yearly}`, but
`analyzeJobPosting` runs them only after `cleanJobText`, which replaces
the dollar signs by spaces, so the pipeline's salary field is `none`. -/
theorem claim_C6_salary_lost_by_cleaning :
    extractSalaryRange "$120,000 - $160,000 per year" =
      some { min := 120000, max := 160000, currency := "USD", period := "yearly" } ∧
    analyzeJobPostingSalary "$120,000 - $160,000 per year" = none := by
  constructor
  · rfl
  · rfl

/-- C7 (counterexample): for the job text "javascript", the keyword
"javascript" is not assigned the default importance 5. -/
theorem claim_C7_counterexample :
    (analyzeKeywordImportance ["javascript"] "javascript").map
      (fun ki => ki.importance) ≠ [5] := by
  with_unfolding_all decide

/-- C7 (amended): for the job text "javascript" the keyword "javascript"
is assigned importance 10 — the exact-match weight of the technical
table — with no context boosts applied. -/
theorem claim_C7_importance_is_table_weight :
    analyzeKeywordImportance ["javascript"] "javascript" =
      [{ keyword := "javascript", importance := 10, category := Category.technical,
         context := ["javascript"] }] ∧
    importanceBase "javascript" Category.technical = 10 ∧
    requiredBoost "javascript" = 0 ∧ yearsBoost "javascript" "javascript" = 0 ∧
    freqBoost "javascript" "javascript" = 0 := by
  refine ⟨?_, ?_, ?_, ?_, ?_⟩ <;> with_unfolding_all decide

/-! ## The claims about the tailoring engine -/

/-- C10 (counterexample): for resume "JavaScript rules\neducation\n" and
job text "javascript" a keyword-density-outlier suggestion is generated
whose original field is the bare keyword, yet applying the suggestions
leaves the resume text unchanged (the case-sensitive replacement does not
find the lower-cased keyword), so no advisory text is injected. -/
theorem claim_C10_counterexample :
    (tailorResume "JavaScript rules\neducation\n" "javascript" "dev").suggestions.map
        (fun s => (s.original, s.suggested, s.impact)) =
      [("javascript", "Reduce repetition of \"javascript\"", (-5 : ℤ))] ∧
    (tailorResume "JavaScript rules\neducation\n" "javascript" "dev").tailoredResume =
      "JavaScript rules\neducation\n" ∧
    strIncludes (tailorResume "JavaScript rules\neducation\n" "javascript" "dev").tailoredResume
      "Reduce repetition" = false := by
  refine ⟨?_, ?_, ?_⟩ <;> with_unfolding_all decide

/-- C10 (amended): every keyword-density-outlier suggestion has the bare
keyword as its original field and one of the two advisory texts as its
suggested field; and whenever the keyword occurs verbatim in the text
being tailored, `applyTailoringChanges` replaces its first occurrence by
that advisory text (so the meta-recommendation is injected into the
tailored resume). -/
theorem claim_C10_density_suggestions_inject_advisory :
    (∀ (sections : List ResumeSection) (kms : List KeywordMatch),
      ∀ s ∈ optimizeKeywordDensity sections kms,
        ∃ km ∈ kms, s.original = km.keyword ∧
          (s.suggested = "Reduce repetition of \"" ++ km.keyword ++ "\"" ∨
           s.suggested = "Increase usage of \"" ++ km.keyword ++ "\"")) ∧
    (∀ (text : String) (s : TailordSuggestion) (rest : List TailordSuggestion),
      strIncludes text s.original = true →
        applyTailoringChanges text (s :: rest) =
          applyTailoringChanges (jsReplaceFirst text s.original s.suggested) rest) := by
  constructor
  · intro sections kms s hs
    simp only [optimizeKeywordDensity] at hs
    rcases List.mem_filterMap.mp hs with ⟨km, hkm, hmap⟩
    refine ⟨km, hkm, ?_⟩
    split_ifs at hmap
    · cases hmap
      exact ⟨rfl, Or.inl rfl⟩
    · cases hmap
      exact ⟨rfl, Or.inr rfl⟩
  · intro text s rest h
    unfold applyTailoringChanges
    rw [List.foldl_cons, if_pos h]

theorem filter_length_mono {α : Type} (p q : α → Bool) :
    ∀ l : List α, (∀ x ∈ l, p x = true → q x = true) →
      (l.filter p).length ≤ (l.filter q).length := by
  intro l
  induction l with
  | nil => intro; simp
  | cons x xs ih =>
    intro h
    have hxs := ih (fun y hy => h y (List.mem_cons_of_mem _ hy))
    simp only [List.filter_cons]
    by_cases hp : p x = true
    · have hq := h x (List.mem_cons_self x xs) hp
      simp only [hp, hq, if_true, List.length_cons]
      omega
    · have hp' : p x = false := by simpa using hp
      simp only [hp', Bool.false_eq_true, if_false]
      cases hq : q x
      · simp only [Bool.false_eq_true, if_false]
        exact hxs
      · simp only [if_true, List.length_cons]
        omega

theorem matchedKeywordCount_eq (r : String) (ks : List String) :
    matchedKeywordCount r ks =
      (ks.filter (fun kw => (extractKeywords r).any (fun rk =>
        strIncludes (lowerStr rk) (lowerStr kw) ||
        strIncludes (lowerStr kw) (lowerStr rk)))).length := by
  unfold matchedKeywordCount analyzeKeywordMatches
  rw [List.filter_map, List.length_map]
  rfl

/-- C9 (counterexample): a concrete resume, job description and target
role where one generated suggestion's original text occurs verbatim in
the resume, yet the tailored resume matches strictly fewer job keywords
than the original resume: the keyword-insertion rewrite splits the token
"experiencedocker" and destroys the substring matches of the job keywords
"edocker" and "cedock" while only "python" is gained. -/
theorem claim_C9_counterexample :
    ((tailorResume "experiencedocker\neducation\n" "python edocker cedock" "developer").suggestions.any
      (fun s => strIncludes "experiencedocker\neducation\n" s.original)) = true ∧
    matchedKeywordCount
        (tailorResume "experiencedocker\neducation\n" "python edocker cedock" "developer").tailoredResume
        (extractKeywords "python edocker cedock") <
      matchedKeywordCount "experiencedocker\neducation\n"
        (extractKeywords "python edocker cedock") := by
  constructor
  · with_unfolding_all decide
  · with_unfolding_all decide

/-- C9 (amended): tailoring does not decrease keyword coverage on inputs
where, in addition to some suggestion's original text occurring verbatim
in the resume, the applied substitutions preserve every keyword extracted
from the original resume; in general the literal substitutions can
destroy extracted keywords and strictly decrease coverage. -/
theorem claim_C9_coverage_monotone_when_keywords_preserved
    (resumeText jobDescription targetRole : String)
    (hsome : ((tailorResume resumeText jobDescription targetRole).suggestions.any
      (fun s => strIncludes resumeText s.original)) = true)
    (hpres : ∀ rk ∈ extractKeywords resumeText,
      rk ∈ extractKeywords (tailorResume resumeText jobDescription targetRole).tailoredResume) :
    matchedKeywordCount resumeText (extractKeywords jobDescription) ≤
      matchedKeywordCount (tailorResume resumeText jobDescription targetRole).tailoredResume
        (extractKeywords jobDescription) := by
  rw [matchedKeywordCount_eq, matchedKeywordCount_eq]
  refine filter_length_mono _ _ _ ?_
  intro kw _ h
  rcases List.any_eq_true.mp h with ⟨rk, hrk, hp⟩
  exact List.any_eq_true.mpr ⟨rk, hpres rk hrk, hp⟩

/-- Witness for the amended C9 at a concrete input: the density suggestion
for "javascript" applies verbatim and every original keyword survives the
substitution, so coverage does not decrease. -/
theorem claim_C9_witness :
    matchedKeywordCount "javascript rules\neducation\n" (extractKeywords "javascript") ≤
      matchedKeywordCount
        (tailorResume "javascript rules\neducation\n" "javascript" "dev").tailoredResume
        (extractKeywords "javascript") :=
  claim_C9_coverage_monotone_when_keywords_preserved "javascript rules\neducation\n" "javascript"
    "dev" (by with_unfolding_all decide) (by with_unfolding_all decide)

/-! ## Lemmas towards re-extraction stability (claim C8) -/

theorem charOfNat_toNat {n : Nat} (h1 : 32 ≤ n) (h2 : n < 127) : (Char.ofNat n).toNat = n := by
  unfold Char.ofNat
  split
  · rfl
  · rename_i hv
    exact absurd (Or.inl (by omega)) hv

theorem jsToLower_eq_self {c : Char} (h : (65 ≤ c.toNat && c.toNat ≤ 90) = false) :
    jsToLower c = c := by
  unfold jsToLower
  rw [if_neg]
  simp [h]

theorem jsToLower_not_upper (c : Char) :
    (65 ≤ (jsToLower c).toNat && (jsToLower c).toNat ≤ 90) = false := by
  unfold jsToLower
  split_ifs with h
  · simp only [Bool.and_eq_true, decide_eq_true_iff] at h
    have ht : (Char.ofNat (c.toNat + 32)).toNat = c.toNat + 32 :=
      charOfNat_toNat (by omega) (by omega)
    rw [ht]
    have h90 : ¬ (c.toNat + 32 ≤ 90) := by omega
    simp [h90]
  · simpa using h

theorem jsToLower_idem (c : Char) : jsToLower (jsToLower c) = jsToLower c :=
  jsToLower_eq_self (jsToLower_not_upper c)

theorem map_jsToLower_fix {l : List Char} (h : ∀ c ∈ l, jsToLower c = c) :
    l.map jsToLower = l :=
  (List.map_congr_left h).trans (List.map_id l)

theorem map_sanitize_fix {l : List Char}
    (h : ∀ c ∈ l, (isWordChar c || isJsWs c || c = '.' || c = '-') = true) :
    (l.map (fun c => if isWordChar c || isJsWs c || c = '.' || c = '-' then c else ' ')) = l := by
  refine (List.map_congr_left ?_).trans (List.map_id l)
  intro c hc
  dsimp only
  rw [if_pos (h c hc)]
  rfl

theorem collapseWs_id : ∀ (l : List Char), (∀ c ∈ l, isJsWs c = true → c = ' ') →
    noAdjWs l = true → collapseWs l = l := by
  intro l
  induction l with
  | nil => intro _ _; rfl
  | cons c rest ih =>
    intro hws hadj
    cases rest with
    | nil =>
      rw [collapseWs]
      split_ifs with h
      · rw [hws c (List.mem_cons_self _ _) h]
      · rfl
    | cons d rest2 =>
      rw [collapseWs]
      rw [noAdjWs] at hadj
      simp only [Bool.and_eq_true] at hadj
      have hcd : (isJsWs c && isJsWs d) = false := by
        have hx := hadj.1
        cases hcc : (isJsWs c && isJsWs d) with
        | false => rfl
        | true => rw [hcc] at hx; simp at hx
      rw [if_neg (by simp [hcd])]
      have hrec := ih (fun x hx hwx => hws x (List.mem_cons_of_mem _ hx) hwx) hadj.2
      rw [hrec]
      split_ifs with h
      · rw [hws c (List.mem_cons_self _ _) h]
      · rfl

theorem dropWhile_eq_self_of_headNotWs {l : List Char} (h : headNotWs l = true) :
    l.dropWhile isJsWs = l := by
  cases l with
  | nil => rfl
  | cons c rest =>
    unfold headNotWs at h
    simp only [List.head?_cons] at h
    rw [List.dropWhile_cons, if_neg (by simp_all)]

theorem trimWs_id {l : List Char} (hh : headNotWs l = true) (hl : lastNotWs l = true) :
    trimWs l = l := by
  unfold trimWs
  rw [dropWhile_eq_self_of_headNotWs hh]
  have h2 : headNotWs l.reverse = true := by
    unfold headNotWs
    rw [List.head?_reverse]
    unfold lastNotWs at hl
    exact hl
  rw [dropWhile_eq_self_of_headNotWs h2, List.reverse_reverse]

theorem cleanTextKA_of_cleanForm {s : String} (h : cleanForm s.data) : cleanTextKA s = s := by
  obtain ⟨hchars, hh, hl, hadj⟩ := h
  unfold cleanTextKA
  rw [map_jsToLower_fix (fun c hc => (hchars c hc).2)]
  rw [map_sanitize_fix ?keep]
  case keep =>
    intro c hc
    rcases (hchars c hc).1 with h1 | h2
    · subst h1; rfl
    · have h3 := h2.1
      simp only [isKeywordChar, Bool.or_eq_true] at h3
      simp only [Bool.or_eq_true]
      tauto
  rw [collapseWs_id _ ?ws hadj]
  case ws =>
    intro c hc hwc
    rcases (hchars c hc).1 with h1 | h2
    · exact h1
    · rw [h2.2] at hwc; exact absurd hwc (by simp)
  rw [trimWs_id hh hl]

theorem mem_of_mem_trimWs {c : Char} {l : List Char} (h : c ∈ trimWs l) : c ∈ l := by
  unfold trimWs at h
  rw [List.mem_reverse] at h
  have h2 := (List.dropWhile_sublist _).subset h
  rw [List.mem_reverse] at h2
  exact (List.dropWhile_sublist _).subset h2

theorem mem_collapseWs {c : Char} : ∀ (l : List Char), c ∈ collapseWs l →
    c = ' ' ∨ (c ∈ l ∧ isJsWs c = false) := by
  intro l
  induction l with
  | nil => intro hc; rw [collapseWs] at hc; exact absurd hc (List.not_mem_nil c)
  | cons a rest ih =>
    cases rest with
    | nil =>
      intro hc
      rw [collapseWs] at hc
      split_ifs at hc with h
      · exact Or.inl (List.mem_singleton.mp hc)
      · right
        have hca := List.mem_singleton.mp hc
        subst hca
        exact ⟨List.mem_cons_self _ _, by simpa using h⟩
    | cons b rest2 =>
      intro hc
      rw [collapseWs] at hc
      split_ifs at hc with h hws
      · rcases ih hc with h1 | ⟨h2, h3⟩
        · exact Or.inl h1
        · exact Or.inr ⟨List.mem_cons_of_mem _ h2, h3⟩
      · rcases List.mem_cons.mp hc with h1 | h2
        · exact Or.inl h1
        · rcases ih h2 with h1 | ⟨h3, h4⟩
          · exact Or.inl h1
          · exact Or.inr ⟨List.mem_cons_of_mem _ h3, h4⟩
      · rcases List.mem_cons.mp hc with h1 | h2
        · subst h1
          exact Or.inr ⟨List.mem_cons_self _ _, by simpa using hws⟩
        · rcases ih h2 with h1 | ⟨h3, h4⟩
          · exact Or.inl h1
          · exact Or.inr ⟨List.mem_cons_of_mem _ h3, h4⟩

theorem cleanTextKA_chars (s : String) :
    ∀ c ∈ (cleanTextKA s).data,
      (c = ' ' ∨ (isKeywordChar c = true ∧ isJsWs c = false)) ∧ jsToLower c = c := by
  intro c hc
  unfold cleanTextKA at hc
  have hc0 : c ∈ trimWs (collapseWs ((s.data.map jsToLower).map
      (fun c => if isWordChar c || isJsWs c || c = '.' || c = '-' then c else ' '))) := hc
  have hc1 := mem_of_mem_trimWs hc0
  rcases mem_collapseWs _ hc1 with h1 | ⟨h2, h3⟩
  · subst h1
    exact ⟨Or.inl rfl, rfl⟩
  · rcases List.mem_map.mp h2 with ⟨c1, hc1m, heq⟩
    rcases List.mem_map.mp hc1m with ⟨c2, _, hlow⟩
    split_ifs at heq with hk
    · subst heq
      refine ⟨Or.inr ⟨?_, h3⟩, ?_⟩
      · simp only [Bool.or_eq_true] at hk
        simp only [isKeywordChar, Bool.or_eq_true]
        rcases hk with ((hw | hws) | hd) | hm
        · exact Or.inl (Or.inl hw)
        · rw [hws] at h3; exact absurd h3 (by simp)
        · exact Or.inl (Or.inr hd)
        · exact Or.inr hm
      · rw [← hlow]
        exact jsToLower_idem c2
    · subst heq
      exact absurd h3 (by decide)

theorem splitOnChar_nil (sep : Char) : splitOnChar sep [] = [[]] := rfl

theorem splitOnChar_cons (sep c : Char) (rest : List Char) :
    splitOnChar sep (c :: rest) =
      if c = sep then [] :: splitOnChar sep rest
      else
        match splitOnChar sep rest with
        | [] => [[c]]
        | t :: ts => (c :: t) :: ts := rfl

theorem splitOnChar_ne_nil (sep : Char) : ∀ l : List Char, splitOnChar sep l ≠ [] := by
  intro l
  cases l with
  | nil => rw [splitOnChar]; exact List.cons_ne_nil _ _
  | cons c rest =>
    rw [splitOnChar]
    split_ifs
    · exact List.cons_ne_nil _ _
    · cases h : splitOnChar sep rest with
      | nil => exact List.cons_ne_nil _ _
      | cons t ts => exact List.cons_ne_nil _ _

theorem mem_splitOnChar_chars {sep : Char} : ∀ (l w : List Char),
    w ∈ splitOnChar sep l → ∀ c ∈ w, c ∈ l ∧ ¬ c = sep := by
  intro l
  induction l with
  | nil =>
    intro w hw c hc
    rw [splitOnChar] at hw
    rw [List.mem_singleton.mp hw] at hc
    exact absurd hc (List.not_mem_nil c)
  | cons a rest ih =>
    intro w hw c hc
    rw [splitOnChar] at hw
    split_ifs at hw with ha
    · rcases List.mem_cons.mp hw with h1 | h2
      · rw [h1] at hc; exact absurd hc (List.not_mem_nil c)
      · have h := ih w h2 c hc
        exact ⟨List.mem_cons_of_mem _ h.1, h.2⟩
    · rcases hsp : splitOnChar sep rest with _ | ⟨t, ts⟩
      · exact absurd hsp (splitOnChar_ne_nil sep rest)
      · rw [hsp] at hw
        rcases List.mem_cons.mp hw with h1 | h2
        · rw [h1] at hc
          rcases List.mem_cons.mp hc with hc1 | hc2
          · rw [hc1]; exact ⟨List.mem_cons_self _ _, ha⟩
          · have h := ih t (by rw [hsp]; exact List.mem_cons_self t ts) c hc2
            exact ⟨List.mem_cons_of_mem _ h.1, h.2⟩
        · have h := ih w (by rw [hsp]; exact List.mem_cons_of_mem t h2) c hc
          exact ⟨List.mem_cons_of_mem _ h.1, h.2⟩

theorem splitOnChar_no_sep {sep : Char} : ∀ (l : List Char),
    (∀ c ∈ l, ¬ c = sep) → splitOnChar sep l = [l] := by
  intro l
  induction l with
  | nil => intro _; rfl
  | cons a rest ih =>
    intro h
    rw [splitOnChar, if_neg (h a (List.mem_cons_self _ _)),
      ih (fun c hc => h c (List.mem_cons_of_mem _ hc))]

theorem splitOnChar_append_cons (sep : Char) : ∀ (a b : List Char),
    splitOnChar sep (a ++ sep :: b) = splitOnChar sep a ++ splitOnChar sep b := by
  intro a
  induction a with
  | nil =>
    intro b
    rw [List.nil_append, splitOnChar_cons, if_pos rfl, splitOnChar_nil]
    rfl
  | cons c a2 ih =>
    intro b
    by_cases hc : c = sep
    · rw [List.cons_append, splitOnChar_cons, if_pos hc, splitOnChar_cons, if_pos hc, ih b]
      rfl
    · rw [List.cons_append, splitOnChar_cons, if_neg hc, splitOnChar_cons, if_neg hc, ih b]
      rcases hsp : splitOnChar sep a2 with _ | ⟨t, ts⟩
      · exact absurd hsp (splitOnChar_ne_nil sep a2)
      · rcases hsp2 : splitOnChar sep b with _ | ⟨u, us⟩
        · exact absurd hsp2 (splitOnChar_ne_nil sep b)
        · simp

theorem mem_dedupGo_of_mem {x : String} : ∀ (l seen : List String),
    x ∈ l → seen.contains x = false → x ∈ dedupGo seen l := by
  intro l
  induction l with
  | nil => intro seen hx _; exact absurd hx (List.not_mem_nil x)
  | cons y ys ih =>
    intro seen hx hs
    rw [dedupGo]
    rcases List.mem_cons.mp hx with h1 | h2
    · subst h1
      rw [if_neg (by rw [hs]; exact Bool.false_ne_true)]
      exact List.mem_cons_self _ _
    · split_ifs with hy
      · exact ih seen h2 hs
      · by_cases hxy : x = y
        · subst hxy; exact List.mem_cons_self _ _
        · refine List.mem_cons_of_mem _ (ih (y :: seen) h2 ?_)
          simp only [List.contains_cons, Bool.or_eq_false_iff]
          exact ⟨by simp [hxy], hs⟩

theorem mem_of_mem_dedupGo {x : String} : ∀ (l seen : List String),
    x ∈ dedupGo seen l → x ∈ l := by
  intro l
  induction l with
  | nil => intro seen hx; rw [dedupGo] at hx; exact absurd hx (List.not_mem_nil x)
  | cons y ys ih =>
    intro seen hx
    rw [dedupGo] at hx
    split_ifs at hx with hy
    · exact List.mem_cons_of_mem _ (ih seen hx)
    · rcases List.mem_cons.mp hx with h1 | h2
      · rw [h1]; exact List.mem_cons_self _ _
      · exact List.mem_cons_of_mem _ (ih (y :: seen) h2)

theorem mem_dedup {x : String} {l : List String} : x ∈ dedup l ↔ x ∈ l :=
  ⟨mem_of_mem_dedupGo l [], fun h => mem_dedupGo_of_mem l [] h rfl⟩

theorem containsSub_iff (n : List Char) : ∀ hay : List Char,
    containsSub n hay = true ↔ n <:+: hay := by
  intro hay
  induction hay with
  | nil => simp [containsSub, List.isEmpty_iff, List.infix_nil]
  | cons c rest ih =>
    rw [containsSub]
    simp only [Bool.or_eq_true, List.isPrefixOf_iff_prefix, ih]
    exact List.infix_cons_iff.symm

theorem headNotWs_of_no_ws : ∀ (l : List Char), (∀ c ∈ l, isJsWs c = false) →
    headNotWs l = true := by
  intro l h
  cases l with
  | nil => rfl
  | cons c rest =>
    unfold headNotWs
    simp only [List.head?_cons]
    simp [h c (List.mem_cons_self _ _)]

theorem lastNotWs_of_no_ws : ∀ (l : List Char), (∀ c ∈ l, isJsWs c = false) →
    lastNotWs l = true := by
  intro l
  induction l with
  | nil => intro _; rfl
  | cons c rest ih =>
    intro h
    cases rest with
    | nil =>
      unfold lastNotWs
      simp only [List.getLast?_singleton]
      simp [h c (List.mem_cons_self _ _)]
    | cons d rest2 =>
      unfold lastNotWs
      rw [List.getLast?_cons_cons]
      have := ih (fun x hx => h x (List.mem_cons_of_mem _ hx))
      unfold lastNotWs at this
      exact this

theorem noAdjWs_of_no_ws : ∀ (l : List Char), (∀ c ∈ l, isJsWs c = false) →
    noAdjWs l = true := by
  intro l
  induction l with
  | nil => intro _; rfl
  | cons c rest ih =>
    intro h
    cases rest with
    | nil => rfl
    | cons d rest2 =>
      rw [noAdjWs]
      have h1 := h c (List.mem_cons_self _ _)
      have h2 := ih (fun x hx => h x (List.mem_cons_of_mem _ hx))
      simp [h1, h2]

theorem headNotWs_append_left {a : List Char} (x : List Char) (ha : a ≠ [])
    (h : headNotWs a = true) : headNotWs (a ++ x) = true := by
  cases a with
  | nil => exact absurd rfl ha
  | cons c rest =>
    unfold headNotWs at h ⊢
    rw [List.cons_append]
    simpa using h

theorem lastNotWs_cons_of_ne_nil {b : List Char} (y : Char) (hb : b ≠ [])
    (h : lastNotWs b = true) : lastNotWs (y :: b) = true := by
  cases b with
  | nil => exact absurd rfl hb
  | cons d rest =>
    unfold lastNotWs at h ⊢
    rw [List.getLast?_cons_cons]
    exact h

theorem lastNotWs_append_right (a : List Char) {b : List Char} (hb : b ≠ [])
    (h : lastNotWs b = true) : lastNotWs (a ++ b) = true := by
  induction a with
  | nil => simpa using h
  | cons c a2 ih =>
    cases hab : a2 ++ b with
    | nil => rw [List.append_eq_nil] at hab; exact absurd hab.2 hb
    | cons d rest =>
      unfold lastNotWs at ih ⊢
      rw [List.cons_append, hab, List.getLast?_cons_cons, ← hab]
      exact ih

theorem noAdjWs_tail {x : Char} {l : List Char} (h : noAdjWs (x :: l) = true) :
    noAdjWs l = true := by
  cases l with
  | nil => rfl
  | cons y rest =>
    rw [noAdjWs] at h
    exact (Bool.and_eq_true_iff.mp h).2

theorem noAdjWs_append : ∀ (a b : List Char), noAdjWs a = true → noAdjWs b = true →
    (∀ x y, a.getLast? = some x → b.head? = some y → (isJsWs x && isJsWs y) = false) →
    noAdjWs (a ++ b) = true := by
  intro a
  induction a with
  | nil => intro b _ hb _; simpa using hb
  | cons x a2 ih =>
    intro b ha hb hxy
    cases a2 with
    | nil =>
      cases b with
      | nil => rfl
      | cons y b2 =>
        rw [List.singleton_append, noAdjWs]
        have hb1 := hxy x y rfl rfl
        simp [hb1, hb]
    | cons x2 a3 =>
      rw [List.cons_append, List.cons_append, noAdjWs]
      rw [noAdjWs] at ha
      have ha' := Bool.and_eq_true_iff.mp ha
      have hrec := ih b ha'.2 hb (fun u v hu hv => hxy u v (by rw [← List.getLast?_cons_cons] at hu; exact hu) hv)
      rw [List.cons_append] at hrec
      simp [ha'.1, hrec]

theorem cleanForm_append_space {a b : List Char} (hane : a ≠ []) (hbne : b ≠ [])
    (ha : cleanForm a) (hb : cleanForm b) : cleanForm (a ++ ' ' :: b) := by
  obtain ⟨hac, hah, hal, haj⟩ := ha
  obtain ⟨hbc, hbh, hbl, hbj⟩ := hb
  refine ⟨?_, ?_, ?_, ?_⟩
  · intro c hc
    rcases List.mem_append.mp hc with h1 | h2
    · exact hac c h1
    · rcases List.mem_cons.mp h2 with h3 | h4
      · subst h3; exact ⟨Or.inl rfl, rfl⟩
      · exact hbc c h4
  · exact headNotWs_append_left _ hane hah
  · exact lastNotWs_append_right a (List.cons_ne_nil ' ' b)
      (lastNotWs_cons_of_ne_nil ' ' hbne hbl)
  · refine noAdjWs_append a (' ' :: b) haj ?_ ?_
    · cases b with
      | nil => exact absurd rfl hbne
      | cons y b2 =>
        rw [noAdjWs]
        have hy : isJsWs y = false := by
          unfold headNotWs at hbh
          simpa using hbh
        simp [hy, hbj]
    · intro x y hx hy
      unfold lastNotWs at hal
      rw [hx] at hal
      have : isJsWs x = false := by simpa using hal
      simp [this]

theorem joinSpData_ne_nil : ∀ (ks : List (List Char)), ks ≠ [] → (∀ k ∈ ks, k ≠ []) →
    joinSpData ks ≠ [] := by
  intro ks
  cases ks with
  | nil => intro h _; exact absurd rfl h
  | cons k ks2 =>
    intro _ hall
    cases ks2 with
    | nil => exact hall k (List.mem_cons_self _ _)
    | cons k2 ks3 =>
      show k ++ ' ' :: joinSpData (k2 :: ks3) ≠ []
      simp only [ne_eq, List.append_eq_nil]
      intro hcon
      exact List.cons_ne_nil _ _ hcon.2

theorem cleanForm_joinSpData : ∀ (ks : List (List Char)),
    (∀ k ∈ ks, k ≠ [] ∧ cleanForm k) → cleanForm (joinSpData ks) := by
  intro ks
  induction ks with
  | nil =>
    intro _
    exact ⟨fun c hc => absurd hc (List.not_mem_nil c), rfl, rfl, rfl⟩
  | cons k ks2 ih =>
    intro h
    cases ks2 with
    | nil => exact (h k (List.mem_cons_self _ _)).2
    | cons k2 ks3 =>
      show cleanForm (k ++ ' ' :: joinSpData (k2 :: ks3))
      have hk := h k (List.mem_cons_self _ _)
      have hrest := ih (fun x hx => h x (List.mem_cons_of_mem _ hx))
      have hrne : joinSpData (k2 :: ks3) ≠ [] :=
        joinSpData_ne_nil _ (List.cons_ne_nil _ _)
          (fun x hx => (h x (List.mem_cons_of_mem _ hx)).1)
      exact cleanForm_append_space hk.1 hrne hk.2 hrest

theorem infix_joinSpData : ∀ (ks : List (List Char)) (w : List Char), w ∈ ks →
    w <:+: joinSpData ks := by
  intro ks
  induction ks with
  | nil => intro w hw; exact absurd hw (List.not_mem_nil w)
  | cons k ks2 ih =>
    intro w hw
    cases ks2 with
    | nil =>
      have hwk : w = k := by simpa using hw
      subst hwk
      exact List.infix_refl w
    | cons k2 ks3 =>
      show w <:+: k ++ ' ' :: joinSpData (k2 :: ks3)
      rcases List.mem_cons.mp hw with h1 | h2
      · subst h1
        exact (List.prefix_append w (' ' :: joinSpData (k2 :: ks3))).isInfix
      · refine (ih w h2).trans ?_
        refine List.IsSuffix.isInfix ?_
        exact (List.suffix_cons ' ' _).trans (List.suffix_append k _)

theorem split_joinSpData_mem : ∀ (ks : List (List Char)) (w : List Char), w ∈ ks →
    (∀ c ∈ w, ¬ c = ' ') → w ∈ splitOnChar ' ' (joinSpData ks) := by
  intro ks
  induction ks with
  | nil => intro w hw _; exact absurd hw (List.not_mem_nil w)
  | cons k ks2 ih =>
    intro w hw hnosp
    cases ks2 with
    | nil =>
      have hwk : w = k := by simpa using hw
      subst hwk
      show w ∈ splitOnChar ' ' w
      rw [splitOnChar_no_sep _ hnosp]
      exact List.mem_singleton.mpr rfl
    | cons k2 ks3 =>
      show w ∈ splitOnChar ' ' (k ++ ' ' :: joinSpData (k2 :: ks3))
      rw [splitOnChar_append_cons]
      rcases List.mem_cons.mp hw with h1 | h2
      · subst h1
        refine List.mem_append_left _ ?_
        rw [splitOnChar_no_sep _ hnosp]
        exact List.mem_singleton.mpr rfl
      · exact List.mem_append_right _ (ih w h2 hnosp)

theorem catalog_good : ∀ p ∈ technicalPhrases ++ businessPhrases,
    p.data ≠ [] ∧ cleanForm p.data := by
  unfold cleanForm
  with_unfolding_all decide

theorem extractKeywords_good (t : String) :
    ∀ k ∈ extractKeywords t, k.data ≠ [] ∧ cleanForm k.data := by
  intro k hk
  simp only [extractKeywords] at hk
  split_ifs at hk with hguard
  · exact absurd hk (List.not_mem_nil k)
  · rcases List.mem_append.mp (mem_dedup.mp hk) with hp | hw
    · exact catalog_good k (List.mem_filter.mp hp).1
    · have hw2 := List.mem_filter.mp hw
      rcases List.mem_map.mp hw2.1 with ⟨w, hwsplit, hwk⟩
      have hdata : k.data = w := by rw [← hwk]
      have hlen : 2 < k.length := of_decide_eq_true (Bool.and_eq_true_iff.mp hw2.2).1
      have hne : k.data ≠ [] := by
        intro hcon
        have : k.length = 0 := by
          show k.data.length = 0
          rw [hcon]
          rfl
        omega
      have hchars : ∀ c ∈ w, (isKeywordChar c = true ∧ isJsWs c = false) ∧ jsToLower c = c := by
        intro c hc
        have h1 := mem_splitOnChar_chars _ w hwsplit c hc
        have h2 := cleanTextKA_chars t c h1.1
        exact ⟨(h2.1).resolve_left h1.2, h2.2⟩
      have hnows : ∀ c ∈ w, isJsWs c = false := fun c hc => (hchars c hc).1.2
      rw [hdata]
      refine ⟨by rw [← hdata]; exact hne, ?_, ?_, ?_, ?_⟩
      · exact fun c hc => ⟨Or.inr (hchars c hc).1, (hchars c hc).2⟩
      · exact headNotWs_of_no_ws w hnows
      · exact lastNotWs_of_no_ws w hnows
      · exact noAdjWs_of_no_ws w hnows

/-- C8 (amended): re-extraction never loses keywords — every keyword
extracted from a text is also extracted from the space-joined list of
already-extracted keywords.  (Equality fails: the counterexample shows the
re-extraction can also produce new keywords.) -/
theorem claim_C8_extraction_superset (text : String) :
    ∀ k ∈ extractKeywords text, k ∈ extractKeywords (joinSp (extractKeywords text)) := by
  intro k hk
  have hgood := extractKeywords_good text
  set K := extractKeywords text with hK
  have hkK := hk
  have hKne : K ≠ [] := fun h => absurd (h ▸ hk) (List.not_mem_nil k)
  have hmapne : K.map (fun k => k.data) ≠ [] := by
    simpa [List.map_eq_nil_iff] using hKne
  have hmapgood : ∀ w ∈ K.map (fun k => k.data), w ≠ [] ∧ cleanForm w := by
    intro w hw
    rcases List.mem_map.mp hw with ⟨k', hk', rfl⟩
    exact hgood k' hk'
  have hTne : joinSpData (K.map (fun k => k.data)) ≠ [] :=
    joinSpData_ne_nil _ hmapne (fun w hw => (hmapgood w hw).1)
  have hTcf : cleanForm (joinSp K).data := cleanForm_joinSpData _ hmapgood
  have hclean : cleanTextKA (joinSp K) = joinSp K := cleanTextKA_of_cleanForm hTcf
  have hguardT : ¬ ((trimWs (joinSp K).data).isEmpty = true) := by
    rw [trimWs_id hTcf.2.1 hTcf.2.2.1]
    simpa [List.isEmpty_iff] using hTne
  simp only [extractKeywords]
  rw [hclean, if_neg hguardT]
  refine mem_dedup.mpr (List.mem_append.mpr ?_)
  rw [hK] at hk
  simp only [extractKeywords] at hk
  split_ifs at hk with hguard
  · exact absurd hk (List.not_mem_nil k)
  rcases List.mem_append.mp (mem_dedup.mp hk) with hp | hw
  · left
    simp only [extractPhrases] at hp ⊢
    refine List.mem_filter.mpr ⟨(List.mem_filter.mp hp).1, ?_⟩
    refine (containsSub_iff _ _).mpr ?_
    exact infix_joinSpData _ k.data (List.mem_map_of_mem _ hkK)
  · right
    have hw2 := List.mem_filter.mp hw
    rcases List.mem_map.mp hw2.1 with ⟨w, hwsplit, hwk⟩
    refine List.mem_filter.mpr ⟨List.mem_map.mpr ⟨w, ?_, hwk⟩, hw2.2⟩
    refine split_joinSpData_mem _ w ?_ ?_
    · exact List.mem_map.mpr ⟨k, hkK, by rw [← hwk]⟩
    · intro c hc
      exact (mem_splitOnChar_chars _ w hwsplit c hc).2

/-- C8 (counterexample): extraction is not idempotent on its own output —
the text "across functionality" yields the catalog phrase
"cross functional" by substring match, and re-extracting from the joined
keywords produces the new keyword "cross". -/
theorem claim_C8_counterexample :
    "cross" ∈ extractKeywords (joinSp (extractKeywords "across functionality")) ∧
    "cross" ∉ extractKeywords "across functionality" := by
  constructor
  · with_unfolding_all decide
  · with_unfolding_all decide

/-- Witness for the amended C8 at a concrete input. -/
theorem claim_C8_witness :
    "machine" ∈ extractKeywords (joinSp (extractKeywords "machine learning")) :=
  claim_C8_extraction_superset "machine learning" "machine" (by with_unfolding_all decide)
